import Mathlib

/-!
Verification of the TaggerNews scraper/taxonomy core.

This file gives a shallow embedding, in Lean 4, of the parts of the
TaggerNews code base (src/taggernews) that the specification claims talk
about: the tag taxonomy service, the scraper-state repository's chunked
id lookup, the batch-processing kernel, the backfill and continuous
scraper state machines, the tag-merge executor, the proposal life cycle,
the enrichment loop, the paginated query endpoints, and the advisory-lock
protected state initialization.  Effectful Python code (database session,
HTTP client, LLM oracle) is modelled by explicit state passing and by
function parameters standing for the external services.
-/

namespace TaggerNews

/-! ### Taxonomy service (`services/tag_taxonomy.py`) -/

/-- The canonical L1 vocabulary (`L1_TAGS`). -/
def L1_TAGS : List String := ["Tech", "Business", "Science", "Society"]

/-- The canonical L2 vocabulary with its mother categories
(`L2_TAG_CATEGORIES`). -/
def L2_TAG_CATEGORIES : List (String × String) :=
  [("EU", "Region"), ("USA", "Region"), ("China", "Region"),
   ("Canada", "Region"), ("India", "Region"), ("Germany", "Region"),
   ("France", "Region"), ("Netherlands", "Region"), ("UK", "Region"),
   ("Python", "Tech Stacks"), ("Rust", "Tech Stacks"), ("Go", "Tech Stacks"),
   ("JavaScript", "Tech Stacks"), ("Linux", "Tech Stacks"),
   ("AI/ML", "Tech Topics"), ("Web", "Tech Topics"), ("Systems", "Tech Topics"),
   ("Security", "Tech Topics"), ("Mobile", "Tech Topics"),
   ("DevOps", "Tech Topics"), ("Data", "Tech Topics"), ("Cloud", "Tech Topics"),
   ("Open Source", "Tech Topics"), ("Hardware", "Tech Topics"),
   ("Startups", "Business"), ("Finance", "Business"), ("Career", "Business"),
   ("Products", "Business"), ("Legal", "Business"), ("Marketing", "Business"),
   ("Research", "Science"), ("Space", "Science"), ("Biology", "Science"),
   ("Physics", "Science")]

/-- `L2_TAGS`: the set of all L2 tag names. -/
def L2_TAGS : List String := L2_TAG_CATEGORIES.map Prod.fst

/-- One step of the regex `re.sub(r"[^a-z0-9]+", "-", slug)`:
keep lowercase-alphanumeric characters, replace every maximal run of
other characters by a single `-`.  The boolean records whether the
previous emitted character was the replacement dash. -/
def slugCollapse : List Char → Bool → List Char
  | [], _ => []
  | c :: cs, prevDash =>
    if ('a' ≤ c ∧ c ≤ 'z') ∨ ('0' ≤ c ∧ c ≤ '9') then
      c :: slugCollapse cs false
    else if prevDash then
      slugCollapse cs true
    else
      '-' :: slugCollapse cs true

/-- The whitespace characters `str.strip()` removes (ASCII range). -/
def isPythonSpace (c : Char) : Bool :=
  c == ' ' || c == '\t' || c == '\n' || c == '\r' || c == '\x0b' || c == '\x0c'

/-- `normalize_slug(name)`: lowercase (`str.lower`, ASCII range) and
strip whitespace, collapse each non-alphanumeric run to `-`, strip
leading/trailing `-`. -/
def normalize_slug (name : String) : String :=
  let lowered := name.toList.map Char.toLower
  let stripped :=
    ((lowered.dropWhile isPythonSpace).reverse.dropWhile isPythonSpace).reverse
  let collapsed := slugCollapse stripped false
  String.mk
    (((collapsed.dropWhile (· == '-')).reverse.dropWhile (· == '-')).reverse)

/-- `get_level_for_tag(name)`: exact membership test against L1 then L2,
else 3. -/
def get_level_for_tag (name : String) : Nat :=
  if L1_TAGS.contains name then 1
  else if L2_TAGS.contains name then 2
  else 3

/-- `get_category_for_tag(name)`: mother category of an L2 tag, else none. -/
def get_category_for_tag (name : String) : Option String :=
  (L2_TAG_CATEGORIES.find? (fun p => p.1 == name)).map Prod.snd

/-- A row of the `tags` table (`TagModel`), restricted to the columns the
taxonomy service reads and writes. -/
structure TagModel where
  id : Nat
  name : String
  slug : String
  level : Nat
  category : Option String
  is_misc : Bool
  usage_count : Nat
  deriving DecidableEq, Repr

/-- The state a `TaxonomyService` instance operates on: its per-instance
`_tag_cache` (keyed by slug), the `tags` table, and the id the database
would assign to the next inserted row. -/
structure TaxState where
  cache : List (String × TagModel)
  db : List TagModel
  nextId : Nat
  deriving DecidableEq, Repr

/-- The empty taxonomy state: fresh cache, empty `tags` table. -/
def TaxState.empty : TaxState := ⟨[], [], 1⟩

/-- `TaxonomyService.get_or_create_tag(name)`: look the slug up in the
cache, then in the database; on a miss insert a row whose level,
category and `is_misc` are computed from this `name`. -/
def get_or_create_tag (st : TaxState) (name : String) : TagModel × TaxState :=
  let slug := normalize_slug name
  match st.cache.find? (fun p => p.1 == slug) with
  | some p => (p.2, st)
  | none =>
    match st.db.find? (fun t => t.slug == slug) with
    | some t => (t, { st with cache := (slug, t) :: st.cache })
    | none =>
      let level := get_level_for_tag name
      let tag : TagModel :=
        { id := st.nextId, name := name, slug := slug, level := level,
          category := get_category_for_tag name, is_misc := level == 3,
          usage_count := 1 }
      (tag, { cache := (slug, tag) :: st.cache, db := st.db ++ [tag],
              nextId := st.nextId + 1 })

/-! ### Chunked id lookup (`repositories/scraper_state_repo.py`) -/

/-- `SELECT hn_id FROM stories WHERE hn_id IN chunk`: the stored ids that
occur in `chunk`.  `store` is the list of `hn_id` values present in the
`stories` table. -/
def selectHnIdsIn (store : List Nat) (chunk : List Nat) : List Nat :=
  store.filter (fun h => chunk.contains h)

/-- The chunks `hn_ids[i:i+1000]` for `i in range(0, len(hn_ids), 1000)`. -/
def chunksOf1000 (ids : List Nat) : List (List Nat) :=
  if ids.isEmpty then []
  else ids.take 1000 :: chunksOf1000 (ids.drop 1000)
  termination_by ids.length
  decreasing_by
    simp only [List.length_drop]
    cases ids with
    | nil => simp_all
    | cons a l => simp; omega

/-- `ScraperStateRepository.get_existing_hn_ids(hn_ids)`: a single
IN-query for at most 1000 ids, otherwise the union of one query per
1000-element chunk.  (The Python function returns a set; we return a
list and state its properties up to membership.) -/
def get_existing_hn_ids (store : List Nat) (hn_ids : List Nat) : List Nat :=
  if hn_ids.isEmpty then []
  else if hn_ids.length ≤ 1000 then selectHnIdsIn store hn_ids
  else (chunksOf1000 hn_ids).foldl (fun acc c => acc ++ selectHnIdsIn store c) []

/-! ### Batch-processing kernel (`services/scraper.py`, `_process_item_batch`) -/

/-- An item fetched from the upstream feed, as the kernel sees it after
`HNClient.get_items_batch` has filtered to live stories: its id and its
`hn_created_at` timestamp (epoch seconds). -/
structure HNStory where
  hn_id : Nat
  hn_created_at : Nat
  deriving DecidableEq, Repr

/-- The stats dictionary returned by `_process_item_batch`. -/
structure BatchStats where
  items_scanned : Nat
  stories_found : Nat
  stories_new : Nat
  reached_target_date : Bool
  deriving DecidableEq, Repr

/-- `min(stories, key=lambda s: s.hn_created_at)` applied to the batch:
the minimal timestamp of `s :: rest`. -/
def oldestCreatedAt (s : HNStory) (rest : List HNStory) : Nat :=
  rest.foldl (fun m st => Nat.min m st.hn_created_at) s.hn_created_at

/-- `StoryRepository.upsert_many`, restricted to the effect on the set of
stored `hn_id`s: `INSERT .. ON CONFLICT (hn_id) DO UPDATE` adds the ids
that are not yet present and leaves the rest in place. -/
def upsert_many (store : List Nat) (stories : List HNStory) : List Nat :=
  store ++ (stories.map (·.hn_id)).filter (fun h => !(store.contains h))

/-- `ScraperService._process_item_batch(item_ids, target_timestamp)`.
`store` is the set of stored `hn_id`s; `fetch` stands for
`HNClient.get_items_batch(new_ids, filter_type="story")`.  Returns the
batch stats together with the story store after the batch. -/
def process_item_batch (store : List Nat) (fetch : List Nat → List HNStory)
    (target_timestamp : Option Nat) (item_ids : List Nat) :
    BatchStats × List Nat :=
  let stats : BatchStats :=
    ⟨item_ids.length, 0, 0, false⟩
  let existing_ids := get_existing_hn_ids store item_ids
  let new_ids := item_ids.filter (fun iid => !(existing_ids.contains iid))
  if new_ids.isEmpty then (stats, store)
  else
    let stories := fetch new_ids
    let stats := { stats with stories_found := stories.length }
    let (stories, stats) :=
      match target_timestamp, stories with
      | some target, s :: rest =>
        if oldestCreatedAt s rest < target then
          ((s :: rest).filter (fun st : HNStory =>
             decide (target ≤ st.hn_created_at)),
           { stats with reached_target_date := true })
        else (s :: rest, stats)
      | _, _ => (stories, stats)
    if stories.isEmpty then (stats, store)
    else
      ({ stats with stories_new := stories.length }, upsert_many store stories)

/-! ### Backfill state machine (`services/scraper.py`, `run_backfill`) -/

/-- `scraper_state.status` values. -/
inductive ScraperStatus
  | active
  | completed
  | paused
  deriving DecidableEq, Repr

/-- One row of the `scraper_state` table, restricted to the fields the
state machine reads and writes. -/
structure ScraperState where
  current_item_id : Nat
  status : ScraperStatus
  deriving DecidableEq, Repr

/-- Result of the backfill `while` loop: the final `current_item_id`, the
`reached_target` flag, the batches handed to `_process_item_batch` in
order, and the `current_item_id` values persisted by
`create_or_update_state` in order. -/
structure BackfillLoopResult where
  current : Nat
  reached : Bool
  batches : List (List Nat)
  persisted : List Nat
  deriving Repr

/-- The `while current_id > 0 and not reached_target` loop of
`run_backfill`.  `kernel ids` abstracts the `reached_target_date` field
of `_process_item_batch(ids, target_timestamp)`; `B` is `batch_size`
and `rem` is `max_batches - batches_done`, so the Python exit test
`batches_done + 1 >= max_batches` after a batch is `rem ≤ 1` here, and
the loop continues with `rem - 1`. -/
def run_backfill_loop (kernel : List Nat → Bool) (B : Nat) :
    Nat → Nat → BackfillLoopResult
  | rem, current =>
    if current = 0 then ⟨current, false, [], []⟩
    else
      let batchStart := max 1 (current - B + 1)
      let ids := List.range' batchStart (current + 1 - batchStart)
      let reached := kernel ids
      let current' := batchStart - 1
      if reached then ⟨current', true, [ids], [current']⟩
      else
        match rem with
        | 0 => ⟨current', false, [ids], [current']⟩
        | 1 => ⟨current', false, [ids], [current']⟩
        | r + 2 =>
          let rr := run_backfill_loop kernel B (r + 1) current'
          ⟨rr.current, rr.reached, ids :: rr.batches, current' :: rr.persisted⟩

/-- Result of one `run_backfill` call: the state row it leaves behind,
the `reached_target` flag, the processed batches and the persisted
`current_item_id` trace (the final persist of the completion branch
included). -/
structure BackfillRunResult where
  state : ScraperState
  reached : Bool
  batches : List (List Nat)
  persisted : List Nat
  deriving Repr

/-- `run_backfill` resumed from an `active` state row whose
`current_item_id` is `c0` (the `status == "active"` branch, then the
loop, then the completion check `current_id <= 0 or reached_target`). -/
def run_backfill_from (kernel : List Nat → Bool) (B maxB : Nat) (c0 : Nat) :
    BackfillRunResult :=
  let r := run_backfill_loop kernel B maxB c0
  if r.current = 0 ∨ r.reached then
    ⟨⟨r.current, .completed⟩, r.reached, r.batches, r.persisted ++ [r.current]⟩
  else
    ⟨⟨r.current, .active⟩, r.reached, r.batches, r.persisted⟩

/-- One scheduler tick of the backfill job acting on an existing state
row: `completed` is a no-op (`"already_completed"`), `active` resumes
from the persisted `current_item_id`, and any other row (the code only
ever writes `active` and `completed`) takes the fresh-start path: fetch
`maxitem`, persist it as the new `current_item_id` with status `active`
(no change when `maxitem` is unavailable), and run the loop from it. -/
def backfill_tick (kernel : List Nat → Bool) (B maxB : Nat)
    (maxItem : Option Nat) (st : ScraperState) : ScraperState :=
  match st.status with
  | .completed => st
  | .active => (run_backfill_from kernel B maxB st.current_item_id).state
  | .paused =>
    match maxItem with
    | none => st
    | some m => (run_backfill_from kernel B maxB m).state

/-- A sequence of backfill scheduler ticks, one kernel and one upstream
`maxitem` per tick. -/
def backfill_ticks (ticks : List ((List Nat → Bool) × Option Nat))
    (B maxB : Nat) (st : ScraperState) : ScraperState :=
  ticks.foldl (fun s t => backfill_tick t.1 B maxB t.2 s) st

/-! ### Continuous state machine (`services/scraper.py`,
`run_continuous_scrape`) -/

/-- The `while current_id <= max_item` loop of `run_continuous_scrape`:
returns the list of `current_item_id` values persisted after each batch
(each is the batch's `batch_end`).  `fuel` bounds the number of
iterations; the Python loop needs `(max_item - current_id) / B` of them. -/
def continuous_loop (B maxItem : Nat) : Nat → Nat → List Nat
  | _, 0 => []
  | current_id, fuel + 1 =>
    if current_id ≤ maxItem then
      let batch_end := min (current_id + B - 1) maxItem
      batch_end :: continuous_loop B maxItem (batch_end + 1) fuel
    else []

/-- One tick of the continuous job acting on an existing state row `st`:
compute `gap = max_item - current_item_id`; if positive, walk forward in
batches persisting `batch_end` after each; the state row ends at the
last persisted value with status `active`.  Returns the new state row
and the persisted trace. -/
def continuous_tick (B maxItem fuel : Nat) (st : ScraperState) :
    ScraperState × List Nat :=
  if st.current_item_id < maxItem then
    match (continuous_loop B maxItem (st.current_item_id + 1) fuel).getLast? with
    | some last =>
      (⟨last, .active⟩, continuous_loop B maxItem (st.current_item_id + 1) fuel)
    | none => (st, continuous_loop B maxItem (st.current_item_id + 1) fuel)
  else (st, [])

/-- A sequence of continuous scheduler ticks; each tick sees its own
upstream `max_item` and fuel. -/
def continuous_ticks (params : List (Nat × Nat)) (B : Nat)
    (st : ScraperState) : ScraperState :=
  params.foldl (fun s p => (continuous_tick B p.1 p.2 s).1) st

/-! ### Tag merge executor (`agents/tag_reorganizer.py`, `_execute_merge`) -/

/-- The tag store the reorganizer acts on: the `tags` table and the
`story_tags` association table (pairs `(story_id, tag_id)`). -/
structure TagDb where
  tags : List TagModel
  pairs : List (Nat × Nat)
  deriving DecidableEq, Repr

/-- The per-source body of the merge loop: first
`DELETE FROM story_tags WHERE tag_id = src AND story_id IN
(SELECT story_id FROM story_tags WHERE tag_id = target)`, then
`UPDATE story_tags SET tag_id = target WHERE tag_id = src`.  The delete
subquery reads the table as it stands when the statement runs. -/
def merge_step (target : Nat) (pairs : List (Nat × Nat)) (src : Nat) :
    List (Nat × Nat) :=
  let afterDelete := pairs.filter (fun p =>
    !(p.2 == src && pairs.any (fun q => q.1 == p.1 && q.2 == target)))
  afterDelete.map (fun p => if p.2 = src then (p.1, target) else p)

/-- The `for source_id in source_ids` loop of `_execute_merge`. -/
def merge_pairs (target : Nat) (source_ids : List Nat)
    (pairs : List (Nat × Nat)) : List (Nat × Nat) :=
  source_ids.foldl (merge_step target) pairs

/-- The write phase of `_execute_merge` (lines after the dry-run check):
re-point `story_tags`, `DELETE FROM tags WHERE id IN source_ids`, then
set the target's `usage_count` to the count of `story_tags` rows whose
`tag_id` is the target. -/
def execute_merge_writes (db : TagDb) (source_ids : List Nat)
    (target : Nat) : TagDb :=
  let pairs' := merge_pairs target source_ids db.pairs
  let usage := (pairs'.filter (fun p => p.2 == target)).length
  let tags' := (db.tags.filter (fun t => !(source_ids.contains t.id))).map
    (fun t => if t.id = target then { t with usage_count := usage } else t)
  ⟨tags', pairs'⟩

/-- Model of `scalar_one_or_none()` over
`SELECT * FROM tags WHERE slug = :slug`: `none` when no row matches,
the row when exactly one does, and the `MultipleResultsFound` error
when several rows share the slug (`tags.slug` carries no unique
constraint, and the reorganizer's queries assume at most one match). -/
def scalar_one_or_none (tags : List TagModel) (slug : String) :
    Except String (Option TagModel) :=
  match tags.filter (fun t => t.slug == slug) with
  | [] => .ok none
  | [t] => .ok (some t)
  | _ => .error "MultipleResultsFound"

/-- Model of `TagReorganizerAgent._get_tag_by_name`: normalize the name
to a slug and fetch the single matching row. -/
def get_tag_by_name (tags : List TagModel) (name : String) :
    Except String (Option TagModel) :=
  scalar_one_or_none tags (normalize_slug name)

/-- Model of `TagReorganizerAgent._get_or_create_tag`: return the
existing row for the name's slug, or insert a level-2 non-misc row with
`usage_count 0`; propagates `MultipleResultsFound` from the lookup. -/
def reorganizer_get_or_create_tag (nextId : Nat) (tags : List TagModel)
    (name : String) : Except String (TagModel × List TagModel × Nat) :=
  match get_tag_by_name tags name with
  | .error e => .error e
  | .ok (some t) => .ok (t, tags, nextId)
  | .ok none =>
    let tag : TagModel :=
      { id := nextId, name := name, slug := normalize_slug name,
        level := 2, category := get_category_for_tag name,
        is_misc := false, usage_count := 0 }
    .ok (tag, tags ++ [tag], nextId + 1)

/-- Model of `TagReorganizerAgent._get_tags_by_names`:
`SELECT * FROM tags WHERE slug IN (:slugs)` — every row whose slug is
the normalization of one of the names. -/
def get_tags_by_names (tags : List TagModel) (names : List String) :
    List TagModel :=
  tags.filter (fun t => (names.map normalize_slug).contains t.slug)

/-- Model of `TagReorganizerAgent._execute_merge`: reject empty inputs
(`ValueError`), get-or-create the target by name (which can raise
`MultipleResultsFound` on an ambiguous slug), select the source rows by
slug, then either report `no_sources`, stop before writing on a dry
run, or perform the write phase.  The returned store is the state the
surrounding transaction commits (a dry run commits nothing). -/
def execute_merge (nextId : Nat) (source_names : List String)
    (target_name : String) (dry_run : Bool) (db : TagDb) :
    Except String (TagDb × String) :=
  if source_names.isEmpty || target_name == "" then
    .error "merge_tags requires source_tags and target_tag"
  else
    match reorganizer_get_or_create_tag nextId db.tags target_name with
    | .error e => .error e
    | .ok (target, tags1, _) =>
      let source_tags := get_tags_by_names tags1 source_names
      let source_ids := source_tags.map (·.id)
      if source_ids.isEmpty then .ok (⟨tags1, db.pairs⟩, "no_sources")
      else if dry_run then .ok (db, "dry_run")
      else .ok (execute_merge_writes ⟨tags1, db.pairs⟩ source_ids target.id,
        "success")

/-- Scenario 4 of the specification: tag 2 (`Python`) carried by stories
1..20, tag 1 (`python`) carried by the disjoint stories 101..105. -/
def mergeScenarioPairs : List (Nat × Nat) :=
  ((List.range 20).map (fun s => (s + 1, 2)))
    ++ ((List.range 5).map (fun s => (s + 101, 1)))

/-- The tag store of the literal scenario 4: `python` (usage 5) and
`Python` (usage 20).  Both names normalize to the slug `"python"`, so
the two rows share it. -/
def mergeScenarioDb : TagDb :=
  ⟨[⟨1, "python", "python", 2, some "Tech Stacks", false, 5⟩,
    ⟨2, "Python", "python", 2, some "Tech Stacks", false, 20⟩],
   mergeScenarioPairs⟩

/-- Scenario 4 with an unambiguous spelling: source tag `Py`
(slug `py`, 5 stories) and target `Python` (slug `python`, 20 disjoint
stories), so the slug lookups each match a single row. -/
def mergeResolvedDb : TagDb :=
  ⟨[⟨1, "Py", "py", 3, none, true, 5⟩,
    ⟨2, "Python", "python", 2, some "Tech Stacks", false, 20⟩],
   mergeScenarioPairs⟩

/-! ### Proposal life cycle (`repositories/agent_repo.py`,
`api/v1/agents.py`, `agents/tag_reorganizer.py`) -/

/-- `tag_proposals.status` values. -/
inductive ProposalStatus
  | pending
  | approved
  | rejected
  | executed
  deriving DecidableEq, Repr

/-- A `tag_proposals` row, restricted to the fields the status
transitions touch (timestamps are epoch numbers). -/
structure TagProposal where
  status : ProposalStatus
  proposal_type : String
  priority : String
  affected_stories_count : Nat
  reviewed_at : Option Nat
  reviewed_by : Option String
  executed_at : Option Nat
  deriving DecidableEq, Repr

/-- `AgentRepository.approve_proposal`: sets the status to `approved`
unconditionally and stamps the review fields. -/
def approve_proposal (p : TagProposal) (reviewer : String) (now : Nat) :
    TagProposal :=
  { p with status := .approved, reviewed_at := some now,
           reviewed_by := some reviewer }

/-- `AgentRepository.reject_proposal`: sets the status to `rejected`
unconditionally and stamps the review fields. -/
def reject_proposal (p : TagProposal) (reviewer : String) (now : Nat) :
    TagProposal :=
  { p with status := .rejected, reviewed_at := some now,
           reviewed_by := some reviewer }

/-- `AgentRepository.mark_proposal_executed`: sets the status to
`executed` and stamps `executed_at`. -/
def mark_proposal_executed (p : TagProposal) (now : Nat) : TagProposal :=
  { p with status := .executed, executed_at := some now }

/-- The `POST /proposals/{id}/approve` handler: 400 unless the proposal
is `pending`, then `approve_proposal`. -/
def approve_endpoint (p : TagProposal) (reviewer : String) (now : Nat) :
    Except Nat TagProposal :=
  if p.status ≠ .pending then .error 400
  else .ok (approve_proposal p reviewer now)

/-- The `POST /proposals/{id}/reject` handler: 400 unless the proposal
is `pending`, then `reject_proposal`. -/
def reject_endpoint (p : TagProposal) (reviewer : String) (now : Nat) :
    Except Nat TagProposal :=
  if p.status ≠ .pending then .error 400
  else .ok (reject_proposal p reviewer now)

/-- `TagReorganizerAgent.run` as far as the proposal row is concerned:
raise (`ValueError`, surfaced as 400) unless the status is `approved`;
execute; then `mark_proposal_executed` unless `dry_run`. -/
def reorganizer_run_status (p : TagProposal) (dry_run : Bool) (now : Nat) :
    Except String TagProposal :=
  if p.status ≠ .approved then
    .error "Proposal not approved"
  else if dry_run then .ok p
  else .ok (mark_proposal_executed p now)

/-- `AgentOrchestrator._is_low_risk`: type in {merge_tags, retire_tag},
affected count within the limit, priority low or medium. -/
def is_low_risk (maxAffected : Nat) (p : TagProposal) : Bool :=
  (p.proposal_type == "merge_tags" || p.proposal_type == "retire_tag") &&
  p.affected_stories_count ≤ maxAffected &&
  (p.priority == "low" || p.priority == "medium")

/-- `AgentRepository.create_proposal`: a fresh proposal row (status
defaults to `pending`, review and execution stamps empty). -/
def create_proposal (ptype priority : String) (affected : Nat) :
    TagProposal :=
  { status := .pending, proposal_type := ptype, priority := priority,
    affected_stories_count := affected, reviewed_at := none,
    reviewed_by := none, executed_at := none }

/-- The status changes the claim allows: `pending → approved`,
`pending → rejected`, `approved → executed` (leaving the status
untouched performs no transition). -/
def allowed_transition : ProposalStatus → ProposalStatus → Bool
  | .pending, .approved => true
  | .pending, .rejected => true
  | .approved, .executed => true
  | a, b => a == b

/-- The data-model invariant `executed_at set iff status = executed`. -/
def proposal_invariant (p : TagProposal) : Prop :=
  p.executed_at.isSome ↔ p.status = .executed

instance (p : TagProposal) : Decidable (proposal_invariant p) := by
  unfold proposal_invariant; infer_instance

/-! ### Enrichment loop (`services/scraper.py`,
`generate_missing_summaries`; `services/summarizer.py`) -/

/-- A story handed to the enrichment loop (the domain object built from
the rows `get_stories_without_summary` returns). -/
structure EnrichStory where
  id : Option Nat
  hn_id : Nat
  title : String
  url : Option String
  deriving DecidableEq, Repr

/-- The enrichment-relevant state of one story row: whether a `summaries`
row exists, the attached tag ids, and the two processing flags. -/
structure StoryEnrichState where
  hasSummary : Bool
  tags : List Nat
  is_summarized : Bool
  is_tagged : Bool
  deriving DecidableEq, Repr

/-- `SummarizerService.summarize_story`: `None` when the API key is not
configured; the whole oracle call is wrapped in `try/except`, so an
oracle failure (exception, timeout, invalid output) also yields `None`;
otherwise the parsed `(summary, flat_tags)`. -/
def summarize_story (apiKey : String)
    (oracle : Except String (String × List Nat)) :
    Option (String × List Nat) :=
  if apiKey = "" then none
  else
    match oracle with
    | .error _ => none
    | .ok r => some r

/-- The body of the `for story in stories` loop of
`generate_missing_summaries` for one story: skip when the story has no
database id or the oracle result is null; otherwise create the summary
row, attach the resolved tags that are not yet present, and set both
processing flags.  `db` maps a story id to its enrichment state; the
second component counts towards the returned total. -/
def enrich_step (oracle : EnrichStory → Option (String × List Nat))
    (acc : (Nat → StoryEnrichState) × Nat) (s : EnrichStory) :
    (Nat → StoryEnrichState) × Nat :=
  let (db, n) := acc
  match s.id with
  | none => (db, n)
  | some sid =>
    match oracle s with
    | none => (db, n)
    | some (_, tagIds) =>
      let old := db sid
      let newTags := tagIds.foldl
        (fun ts t => if ts.contains t then ts else ts ++ [t]) old.tags
      let st' : StoryEnrichState :=
        { hasSummary := true, tags := newTags,
          is_summarized := true, is_tagged := true }
      ((fun i => if i = sid then st' else db i), n + 1)

/-- `generate_missing_summaries` over the selected stories: the
sequential loop, returning the story states and the count. -/
def generate_missing_summaries
    (oracle : EnrichStory → Option (String × List Nat))
    (stories : List EnrichStory) (db : Nat → StoryEnrichState) :
    (Nat → StoryEnrichState) × Nat :=
  stories.foldl (enrich_step oracle) (db, 0)

/-! ### Story listing endpoints (`api/v1/stories.py`,
`api/web/views.py`, `repositories/story_repo.py`) -/

/-- A `stories` row as the listing queries see it. -/
structure ApiStory where
  id : Nat
  score : Nat
  deriving DecidableEq, Repr

/-- A story's tag names by level, for the filter engine. -/
structure StoryTags where
  l1 : List String
  l2 : List String
  l3 : List String
  deriving DecidableEq, Repr

/-- Insert a story into a list already sorted by `score DESC`. -/
def insertByScoreDesc (s : ApiStory) : List ApiStory → List ApiStory
  | [] => [s]
  | t :: ts =>
    if t.score ≤ s.score then s :: t :: ts else t :: insertByScoreDesc s ts

/-- `ORDER BY score DESC`: a sort of the result rows by descending
score. -/
def orderByScoreDesc (stories : List ApiStory) : List ApiStory :=
  stories.foldr insertByScoreDesc []

/-- `StoryRepository.list_stories`: order by `score DESC`, then
`OFFSET offset LIMIT limit`. -/
def list_stories (stories : List ApiStory) (offset limit : Nat) :
    List ApiStory :=
  ((orderByScoreDesc stories).drop offset).take limit

/-- The `TagFilter` dataclass. -/
structure TagFilter where
  l1_include : List String
  l1_exclude : List String
  l2_include : List String
  l2_exclude : List String
  l3_include : List String
  deriving DecidableEq, Repr

/-- `TagFilter.is_empty`. -/
def TagFilter.is_empty (f : TagFilter) : Bool :=
  f.l1_include.isEmpty && f.l1_exclude.isEmpty && f.l2_include.isEmpty &&
  f.l2_exclude.isEmpty && f.l3_include.isEmpty

/-- The predicate `_build_tag_filter_conditions` builds, applied to one
story's tags: each non-empty include list demands a tag of that level in
the list, each non-empty exclude list forbids every tag of that level in
the list. -/
def matches_tag_filter (f : TagFilter) (tags : StoryTags) : Bool :=
  (f.l1_include.isEmpty || tags.l1.any (fun t => f.l1_include.contains t)) &&
  (f.l2_include.isEmpty || tags.l2.any (fun t => f.l2_include.contains t)) &&
  (f.l3_include.isEmpty || tags.l3.any (fun t => f.l3_include.contains t)) &&
  (f.l1_exclude.isEmpty || !(tags.l1.any (fun t => f.l1_exclude.contains t))) &&
  (f.l2_exclude.isEmpty || !(tags.l2.any (fun t => f.l2_exclude.contains t)))

/-- `StoryRepository.list_stories_by_tag_filter`: the unfiltered listing
for an empty filter, otherwise the filter conditions then
`ORDER BY score DESC OFFSET offset LIMIT limit`.  `tagsOf` gives each
story's tags. -/
def list_stories_by_tag_filter (stories : List ApiStory)
    (tagsOf : Nat → StoryTags) (f : TagFilter) (offset limit : Nat) :
    List ApiStory :=
  if f.is_empty then list_stories stories offset limit
  else
    list_stories (stories.filter (fun s => matches_tag_filter f (tagsOf s.id)))
      offset limit

/-- `GET /api/v1/stories`: FastAPI validates
`offset: Query(0, ge=0)`, `limit: Query(30, ge=1, le=100)` and rejects a
violating request with its validation status 422 before the handler
runs; otherwise the handler returns `list_stories(offset, limit)`. -/
def list_stories_endpoint (stories : List ApiStory)
    (offset : Int) (limit : Int) : Except Nat (List ApiStory) :=
  if offset < 0 ∨ limit < 1 ∨ 100 < limit then .error 422
  else .ok (list_stories stories offset.toNat limit.toNat)

/-- `GET /api/stories/advanced-filter.json`: `offset` and `limit` are
plain `int` parameters with no range constraint; the handler passes them
straight to `list_stories_by_tag_filter`.  (Negative values surface as
Python negatives; the repository would hand them to SQL, which rejects
them — the claims only exercise non-negative values, modelled by
`toNat`.) -/
def advanced_filter_stories_json (stories : List ApiStory)
    (tagsOf : Nat → StoryTags) (f : TagFilter) (offset limit : Int) :
    List ApiStory :=
  list_stories_by_tag_filter stories tagsOf f offset.toNat limit.toNat

/-! ### Advisory-lock initialization (`repositories/scraper_state_repo.py`,
`get_or_create_state_with_lock`) -/

/-- The joint state of two concurrent `get_or_create_state_with_lock`
transactions (callers A and B) against one database.  `pc` values:
0 — before `pg_advisory_xact_lock`; 1 — lock held, before the existence
check; 2 — lock held, row checked (and buffered for insert if absent);
3 — transaction committed, lock released.  `db` is the number of
committed `scraper_state` rows with `state_type = 'continuous'`; `buf`
holds a caller's uncommitted insert (visible to nobody else until
commit, per read-committed isolation); `res` is the `was_created` flag
the caller will return.  Both callers hash the same in-process
`hash("scraper_state_continuous")`, hence contend for one lock. -/
structure RaceState where
  pcA : Nat
  pcB : Nat
  lockFree : Bool
  lockByA : Bool
  db : Nat
  bufA : Bool
  bufB : Bool
  resA : Option Bool
  resB : Option Bool
  deriving DecidableEq, Repr

/-- Initial state: both transactions at the start, lock free, no
`continuous` row committed. -/
def RaceState.init : RaceState :=
  ⟨0, 0, true, true, 0, false, false, none, none⟩

/-- One step of caller A.  Acquiring blocks (no state change) while the
lock is held; the existence check reads only committed rows; commit
publishes the buffered insert and releases the transaction-scoped lock. -/
def stepA (s : RaceState) : RaceState :=
  match s.pcA with
  | 0 => if s.lockFree then
           { s with pcA := 1, lockFree := false, lockByA := true }
         else s
  | 1 => if s.db = 0 then { s with pcA := 2, bufA := true, resA := some true }
         else { s with pcA := 2, bufA := false, resA := some false }
  | 2 => { s with pcA := 3, db := s.db + (cond s.bufA 1 0), lockFree := true }
  | _ => s

/-- One step of caller B. -/
def stepB (s : RaceState) : RaceState :=
  match s.pcB with
  | 0 => if s.lockFree then
           { s with pcB := 1, lockFree := false, lockByA := false }
         else s
  | 1 => if s.db = 0 then { s with pcB := 2, bufB := true, resB := some true }
         else { s with pcB := 2, bufB := false, resB := some false }
  | 2 => { s with pcB := 3, db := s.db + (cond s.bufB 1 0), lockFree := true }
  | _ => s

/-- The count a finished caller contributes to the committed
`continuous` row count: 1 if it committed an insert (its `was_created`
flag is true), else 0. -/
def raceCnt (pc : Nat) (res : Option Bool) : Nat :=
  if pc = 3 ∧ res = some true then 1 else 0

/-- Invariant of the two-caller advisory-lock protocol: mutual exclusion
of the critical section (`pg_advisory_xact_lock` is held from acquire to
commit), the buffered insert and `was_created` flag agree with what the
existence check saw, the committed row count equals the number of
finished creators, a creator in the critical section still sees zero
committed rows, and the two flags are never both true and never both
false. -/
def RaceInv (s : RaceState) : Prop :=
  s.pcA ≤ 3 ∧ s.pcB ≤ 3
  ∧ ((s.pcA = 1 ∨ s.pcA = 2) → s.lockFree = false ∧ s.lockByA = true)
  ∧ ((s.pcB = 1 ∨ s.pcB = 2) → s.lockFree = false ∧ s.lockByA = false)
  ∧ (s.pcA ≤ 1 → s.resA = none ∧ s.bufA = false)
  ∧ (s.pcB ≤ 1 → s.resB = none ∧ s.bufB = false)
  ∧ (s.pcA = 2 → ((s.resA = some true ↔ s.bufA = true) ∧ s.resA.isSome))
  ∧ (s.pcB = 2 → ((s.resB = some true ↔ s.bufB = true) ∧ s.resB.isSome))
  ∧ (s.pcA = 3 → s.resA.isSome)
  ∧ (s.pcB = 3 → s.resB.isSome)
  ∧ s.db = raceCnt s.pcA s.resA + raceCnt s.pcB s.resB
  ∧ (s.pcA = 2 ∧ s.resA = some true → s.db = 0)
  ∧ (s.pcB = 2 ∧ s.resB = some true → s.db = 0)
  ∧ (s.pcA = 2 ∧ s.resA = some false → s.db ≠ 0)
  ∧ (s.pcB = 2 ∧ s.resB = some false → s.db ≠ 0)
  ∧ ¬(s.resA = some true ∧ s.resB = some true)
  ∧ (s.resA = some false → s.resB = some true)
  ∧ (s.resB = some false → s.resA = some true)

/-- Run a schedule (`true` = caller A steps, `false` = caller B steps)
from the initial state. -/
def race_exec (sched : List Bool) : RaceState :=
  sched.foldl (fun s c => if c then stepA s else stepB s) RaceState.init

/-! ## Theorems -/

theorem mem_selectHnIdsIn (store c : List Nat) (x : Nat) :
    x ∈ selectHnIdsIn store c ↔ x ∈ store ∧ x ∈ c := by
  simp [selectHnIdsIn, List.mem_filter, List.elem_iff]

theorem chunksOf1000_join (ids : List Nat) :
    (chunksOf1000 ids).flatten = ids := by
  unfold chunksOf1000
  split
  case isTrue h =>
    simp [List.isEmpty_iff] at h
    simp [h]
  case isFalse h =>
    rw [List.flatten_cons, chunksOf1000_join (ids.drop 1000)]
    exact List.take_append_drop 1000 ids
  termination_by ids.length
  decreasing_by
    simp only [List.length_drop]
    cases ids with
    | nil => simp_all
    | cons a l => simp; omega

theorem foldl_append_selects (f : List Nat → List Nat)
    (l : List (List Nat)) (init : List Nat) :
    l.foldl (fun acc c => acc ++ f c) init = init ++ (l.map f).flatten := by
  induction l generalizing init with
  | nil => simp
  | cons c cs ih => simp [ih, List.append_assoc]

theorem mem_get_existing_hn_ids (store hn_ids : List Nat) (x : Nat) :
    x ∈ get_existing_hn_ids store hn_ids ↔ x ∈ store ∧ x ∈ hn_ids := by
  unfold get_existing_hn_ids
  split
  case isTrue h =>
    simp [List.isEmpty_iff] at h
    simp [h]
  case isFalse h =>
    split
    case isTrue hlen => exact mem_selectHnIdsIn store hn_ids x
    case isFalse hlen =>
      rw [foldl_append_selects]
      have hjoin : x ∈ hn_ids ↔ ∃ c ∈ chunksOf1000 hn_ids, x ∈ c := by
        conv_lhs => rw [← chunksOf1000_join hn_ids]
        exact List.mem_flatten
      simp only [List.nil_append, List.mem_flatten, List.mem_map]
      constructor
      · rintro ⟨l, ⟨c, hc, rfl⟩, hx⟩
        have := (mem_selectHnIdsIn store c x).mp hx
        exact ⟨this.1, hjoin.mpr ⟨c, hc, this.2⟩⟩
      · rintro ⟨hstore, hid⟩
        obtain ⟨c, hc, hxc⟩ := hjoin.mp hid
        exact ⟨selectHnIdsIn store c, ⟨c, hc, rfl⟩,
          (mem_selectHnIdsIn store c x).mpr ⟨hstore, hxc⟩⟩

/-- C5.  `get_existing_hn_ids(ids)` returns exactly the set of requested
ids already present in the story store, and the chunked implementation
(used above 1000 ids) agrees, as a set, with the single IN-clause query
for every input list. -/
theorem get_existing_hn_ids_chunking_correct (store hn_ids : List Nat)
    (x : Nat) :
    (x ∈ get_existing_hn_ids store hn_ids ↔ x ∈ selectHnIdsIn store hn_ids)
    ∧ (x ∈ get_existing_hn_ids store hn_ids ↔ x ∈ store ∧ x ∈ hn_ids) :=
  ⟨(mem_get_existing_hn_ids store hn_ids x).trans
     (mem_selectHnIdsIn store hn_ids x).symm,
   mem_get_existing_hn_ids store hn_ids x⟩

/-- C10.  A batch whose ids are all already stored performs no upstream
fetch (the result does not depend on `fetch`) and writes nothing: it
returns `items_scanned = len(ids)`, `stories_found = 0`,
`stories_new = 0`, `reached_target_date = false`, and leaves the story
store unchanged — whatever the target timestamp. -/
theorem process_item_batch_all_existing (store : List Nat)
    (fetch : List Nat → List HNStory) (target : Option Nat)
    (item_ids : List Nat) (h : ∀ i ∈ item_ids, i ∈ store) :
    process_item_batch store fetch target item_ids
      = (⟨item_ids.length, 0, 0, false⟩, store) := by
  unfold process_item_batch
  have hfilter : (item_ids.filter
      (fun iid => !((get_existing_hn_ids store item_ids).contains iid))) = [] := by
    apply List.filter_eq_nil_iff.mpr
    intro a ha
    have hmem : a ∈ get_existing_hn_ids store item_ids :=
      (mem_get_existing_hn_ids store item_ids a).mpr ⟨h a ha, ha⟩
    simp [List.elem_iff, hmem]
  simp only [hfilter]
  simp

/-- Witness for C10: a concrete all-known batch. -/
theorem process_item_batch_all_existing_witness :
    (∀ i ∈ [5, 6], i ∈ [4, 5, 6]) ∧
    process_item_batch [4, 5, 6] (fun _ => []) (some 1000) [5, 6]
      = (⟨2, 0, 0, false⟩, [4, 5, 6]) :=
  ⟨by decide,
   process_item_batch_all_existing [4, 5, 6] (fun _ => []) (some 1000) [5, 6]
     (by decide)⟩

theorem get_or_create_tag_cache_find (st : TaxState) (n : String) :
    ((get_or_create_tag st n).2).cache.find?
        (fun p => p.1 == normalize_slug n)
      = some (normalize_slug n, (get_or_create_tag st n).1) := by
  unfold get_or_create_tag
  cases hc : st.cache.find? (fun p => p.1 == normalize_slug n) with
  | some p =>
    have hp := @List.find?_some _
      (fun q : String × TagModel => q.1 == normalize_slug n) p st.cache hc
    have hp1 : p.1 = normalize_slug n := by simpa using hp
    simp only [hc]
    rw [← hp1]
  | none =>
    cases hdb : st.db.find? (fun t => t.slug == normalize_slug n) with
    | some t => simp [hc, hdb, List.find?]
    | none => simp [hc, hdb, List.find?]

/-- C9.  Two names with the same normalized slug resolve to the same tag
row: the second `get_or_create_tag` call returns the row the first one
returned and leaves the state untouched, and when the first call created
the row its name, level, category and `is_misc` are computed from the
first name.  In particular, creating `"python"` first yields a level-3
misc row to which `"Python"` thereafter resolves. -/
theorem get_or_create_tag_same_slug (st : TaxState) (n1 n2 : String)
    (h : normalize_slug n1 = normalize_slug n2) :
    (get_or_create_tag (get_or_create_tag st n1).2 n2
      = ((get_or_create_tag st n1).1, (get_or_create_tag st n1).2))
    ∧ (st.cache.find? (fun p => p.1 == normalize_slug n1) = none →
       st.db.find? (fun t => t.slug == normalize_slug n1) = none →
         (get_or_create_tag st n1).1.name = n1
         ∧ (get_or_create_tag st n1).1.level = get_level_for_tag n1
         ∧ (get_or_create_tag st n1).1.category = get_category_for_tag n1
         ∧ (get_or_create_tag st n1).1.is_misc
             = (get_level_for_tag n1 == 3)) := by
  constructor
  · have hfind := get_or_create_tag_cache_find st n1
    rw [h] at hfind
    conv_lhs => rw [get_or_create_tag, hfind]
  · intro hc hdb
    simp [get_or_create_tag, hc, hdb]

/-- Witness for C9: `"python"` created first in an empty store is a
level-3 misc tag, and `"Python"` then resolves to that same row. -/
theorem get_or_create_tag_same_slug_witness :
    normalize_slug "python" = normalize_slug "Python"
    ∧ (get_or_create_tag (get_or_create_tag TaxState.empty "python").2
         "Python"
        = ((get_or_create_tag TaxState.empty "python").1,
           (get_or_create_tag TaxState.empty "python").2))
    ∧ (get_or_create_tag TaxState.empty "python").1.level = 3
    ∧ (get_or_create_tag TaxState.empty "python").1.is_misc = true :=
  ⟨by decide,
   (get_or_create_tag_same_slug TaxState.empty "python" "Python"
     (by decide)).1,
   by decide, by decide⟩

/-- C4, counterexample.  `AgentRepository.approve_proposal` checks
nothing: applied to a rejected proposal it performs the transition
`rejected → approved`, which the claim forbids; applied to an executed
proposal it leaves `executed_at` set while the status becomes
`approved`, breaking `executed_at set iff status = executed`. -/
theorem approve_proposal_unguarded_transition :
    (approve_proposal
        ⟨.rejected, "merge_tags", "low", 0, some 1, some "r", none⟩
        "admin" 2).status = .approved
    ∧ allowed_transition .rejected .approved = false
    ∧ (approve_proposal
        ⟨.executed, "merge_tags", "low", 0, some 1, some "r", some 5⟩
        "admin" 9).executed_at = some 5
    ∧ (approve_proposal
        ⟨.executed, "merge_tags", "low", 0, some 1, some "r", some 5⟩
        "admin" 9).status ≠ .executed := by
  decide

/-- C4, amended.  Along the program's call paths — the approve/reject
endpoints guard for `pending`, the reorganizer guards for `approved`,
and the auto-approver only touches freshly created (`pending`)
proposals — every performed status change is one of
`pending → approved`, `pending → rejected`, `approved → executed`, and
each path preserves `executed_at set iff status = executed`. -/
theorem proposal_transitions_guarded (p : TagProposal) (reviewer : String)
    (now : Nat) (dry : Bool) (ptype prio : String) (affected : Nat) :
    (∀ q, approve_endpoint p reviewer now = .ok q →
        p.status = .pending ∧ q.status = .approved
        ∧ allowed_transition p.status q.status = true
        ∧ (proposal_invariant p → proposal_invariant q))
    ∧ (∀ q, reject_endpoint p reviewer now = .ok q →
        p.status = .pending ∧ q.status = .rejected
        ∧ allowed_transition p.status q.status = true
        ∧ (proposal_invariant p → proposal_invariant q))
    ∧ (∀ q, reorganizer_run_status p dry now = .ok q →
        p.status = .approved
        ∧ allowed_transition p.status q.status = true
        ∧ (dry = false → q.status = .executed ∧ q.executed_at = some now)
        ∧ (dry = true → q = p)
        ∧ (proposal_invariant p → proposal_invariant q))
    ∧ ((create_proposal ptype prio affected).status = .pending
       ∧ allowed_transition (create_proposal ptype prio affected).status
           (approve_proposal (create_proposal ptype prio affected)
             reviewer now).status = true
       ∧ proposal_invariant
           (approve_proposal (create_proposal ptype prio affected)
             reviewer now)) := by
  refine ⟨?_, ?_, ?_, ?_⟩
  · intro q hq
    unfold approve_endpoint at hq
    by_cases hp : p.status = ProposalStatus.pending
    · simp [hp] at hq
      subst hq
      simp [hp, approve_proposal, allowed_transition, proposal_invariant]
    · simp [hp] at hq
  · intro q hq
    unfold reject_endpoint at hq
    by_cases hp : p.status = ProposalStatus.pending
    · simp [hp] at hq
      subst hq
      simp [hp, reject_proposal, allowed_transition, proposal_invariant]
    · simp [hp] at hq
  · intro q hq
    unfold reorganizer_run_status at hq
    by_cases hp : p.status = ProposalStatus.approved
    · cases dry with
      | true =>
        simp [hp] at hq
        subst hq
        simp [hp, allowed_transition]
      | false =>
        simp [hp] at hq
        subst hq
        simp [hp, mark_proposal_executed, allowed_transition,
          proposal_invariant]
    · simp [hp] at hq
  · simp [create_proposal, approve_proposal, allowed_transition,
      proposal_invariant]

/-- Witness for C4 (amended): a concrete pending proposal approved
through the endpoint. -/
theorem proposal_transitions_guarded_witness :
    approve_endpoint (create_proposal "merge_tags" "low" 2) "admin" 7
      = .ok (approve_proposal (create_proposal "merge_tags" "low" 2)
          "admin" 7)
    ∧ ((create_proposal "merge_tags" "low" 2).status = .pending
       ∧ (approve_proposal (create_proposal "merge_tags" "low" 2)
           "admin" 7).status = .approved
       ∧ allowed_transition (create_proposal "merge_tags" "low" 2).status
           (approve_proposal (create_proposal "merge_tags" "low" 2)
             "admin" 7).status = true
       ∧ (proposal_invariant (create_proposal "merge_tags" "low" 2) →
          proposal_invariant
            (approve_proposal (create_proposal "merge_tags" "low" 2)
              "admin" 7))) :=
  ⟨by rfl,
   (proposal_transitions_guarded (create_proposal "merge_tags" "low" 2)
     "admin" 7 false "merge_tags" "low" 2).1 _ (by rfl)⟩

theorem enrich_foldl_frame (oracle : EnrichStory → Option (String × List Nat))
    (stories : List EnrichStory) (sid : Nat)
    (h : ∀ s ∈ stories, s.id = some sid → oracle s = none) :
    ∀ acc : (Nat → StoryEnrichState) × Nat,
      (stories.foldl (enrich_step oracle) acc).1 sid = acc.1 sid := by
  induction stories with
  | nil => intro acc; rfl
  | cons s ss ih =>
    intro acc
    rw [List.foldl_cons]
    rw [ih (fun s' hs' => h s' (List.mem_cons_of_mem s hs'))]
    unfold enrich_step
    cases hid : s.id with
    | none => rfl
    | some sid' =>
      cases ho : oracle s with
      | none => rfl
      | some r =>
        by_cases hss : sid' = sid
        · subst hss
          exact absurd ho (by simp [h s (List.mem_cons_self s ss) hid])
        · simp [Ne.symm hss]

theorem enrich_foldl_skips (oracle : EnrichStory → Option (String × List Nat))
    (stories : List EnrichStory) :
    ∀ acc : (Nat → StoryEnrichState) × Nat,
      stories.foldl (enrich_step oracle) acc
        = (stories.filter
            (fun s => (oracle s).isSome && s.id.isSome)).foldl
            (enrich_step oracle) acc := by
  induction stories with
  | nil => intro acc; rfl
  | cons s ss ih =>
    intro acc
    by_cases hkeep : ((oracle s).isSome && s.id.isSome) = true
    · have hf : List.filter (fun s => (oracle s).isSome && s.id.isSome)
          (s :: ss)
          = s :: List.filter (fun s => (oracle s).isSome && s.id.isSome) ss := by
        simp [List.filter_cons, hkeep]
      rw [List.foldl_cons, hf, List.foldl_cons, ih]
    · have hf : List.filter (fun s => (oracle s).isSome && s.id.isSome)
          (s :: ss)
          = List.filter (fun s => (oracle s).isSome && s.id.isSome) ss := by
        simp only [List.filter_cons, hkeep]
        simp
      rw [List.foldl_cons, hf]
      rw [← ih]
      congr 1
      unfold enrich_step
      simp only [Bool.and_eq_true, Option.isSome_iff_exists] at hkeep
      cases hid : s.id with
      | none => rfl
      | some sid' =>
        cases ho : oracle s with
        | none => rfl
        | some r => exact absurd ⟨⟨r, ho⟩, ⟨sid', hid⟩⟩ hkeep

/-- C6.  A null oracle result — missing API key, oracle exception or
timeout (both make `summarize_story` return `None`) — leaves the story's
enrichment state untouched: no summary row, no tags, flags unchanged;
the loop simply skips such stories (processing the list equals
processing only the stories with a non-null oracle result), and
`generate_missing_summaries` is a total function of the oracle's
outcomes — the oracle can never make it raise. -/
theorem generate_missing_summaries_null_oracle
    (oracle : EnrichStory → Option (String × List Nat))
    (stories : List EnrichStory) (db : Nat → StoryEnrichState) (sid : Nat)
    (h : ∀ s ∈ stories, s.id = some sid → oracle s = none) :
    ((generate_missing_summaries oracle stories db).1 sid = db sid)
    ∧ (generate_missing_summaries oracle stories db
        = generate_missing_summaries oracle
            (stories.filter (fun s => (oracle s).isSome && s.id.isSome)) db)
    ∧ (∀ r, summarize_story "" r = none)
    ∧ (∀ k e, summarize_story k (.error e) = none) := by
  refine ⟨enrich_foldl_frame oracle stories sid h (db, 0),
    enrich_foldl_skips oracle stories (db, 0), ?_, ?_⟩
  · intro r; rfl
  · intro k e
    unfold summarize_story
    split <;> rfl

/-- Witness for C6: a two-story batch where the oracle fails on the
first story; that story's state is unchanged while the second is
processed. -/
theorem generate_missing_summaries_null_oracle_witness :
    (∀ s ∈ [(⟨some 10, 1, "a", none⟩ : EnrichStory),
            ⟨some 20, 2, "b", none⟩],
       s.id = some 10 →
         (fun s : EnrichStory =>
            if s.hn_id = 1 then none else some ("t", [7])) s = none)
    ∧ (generate_missing_summaries
        (fun s : EnrichStory =>
           if s.hn_id = 1 then none else some ("t", [7]))
        [⟨some 10, 1, "a", none⟩, ⟨some 20, 2, "b", none⟩]
        (fun _ => ⟨false, [], false, false⟩)).1 10
        = (fun _ : Nat => (⟨false, [], false, false⟩ : StoryEnrichState)) 10 :=
  ⟨by decide,
   (generate_missing_summaries_null_oracle
     (fun s : EnrichStory => if s.hn_id = 1 then none else some ("t", [7]))
     [⟨some 10, 1, "a", none⟩, ⟨some 20, 2, "b", none⟩]
     (fun _ => ⟨false, [], false, false⟩) 10 (by decide)).1⟩

/-- C7, first half (amended).  `GET /api/v1/stories` enforces the hard
ceiling: a `limit` outside `[1, 100]` (or a negative `offset`) is
rejected by FastAPI's parameter validation, and an accepted request
returns at most 100 stories. -/
theorem list_stories_endpoint_ceiling (stories : List ApiStory)
    (offset limit : Int) :
    ((offset < 0 ∨ limit < 1 ∨ 100 < limit) →
       list_stories_endpoint stories offset limit = .error 422)
    ∧ (∀ out, list_stories_endpoint stories offset limit = .ok out →
        out.length ≤ 100) := by
  constructor
  · intro hbad
    unfold list_stories_endpoint
    rw [if_pos hbad]
  · intro out hout
    unfold list_stories_endpoint at hout
    by_cases hbad : offset < 0 ∨ limit < 1 ∨ 100 < limit
    · rw [if_pos hbad] at hout; exact absurd hout (by simp)
    · rw [if_neg hbad] at hout
      have hout' : list_stories stories offset.toNat limit.toNat = out := by
        injection hout
      push_neg at hbad
      have hlim : limit.toNat ≤ 100 := by omega
      calc out.length
          = (list_stories stories offset.toNat limit.toNat).length := by
            rw [hout']
        _ ≤ limit.toNat := by
            unfold list_stories
            simp [List.length_take]
        _ ≤ 100 := hlim

/-- Witness for C7's theorem: `limit=200` is rejected, `limit=30` returns
at most 100 rows. -/
theorem list_stories_endpoint_ceiling_witness :
    list_stories_endpoint [⟨1, 5⟩] 0 200 = .error 422
    ∧ (list_stories [⟨1, 5⟩] 0 30).length ≤ 100 :=
  ⟨(list_stories_endpoint_ceiling [⟨1, 5⟩] 0 200).1 (by decide),
   (list_stories_endpoint_ceiling [⟨1, 5⟩] 0 30).2 _ (by rfl)⟩

/-- C7, counterexample.  The advanced-filter endpoints perform no limit
validation: `/api/stories/advanced-filter.json` with `limit=101` over a
store of 101 stories returns 101 > 100 stories, so the tag-filter
engine endpoints are not subject to the ceiling. -/
theorem advanced_filter_exceeds_ceiling :
    100 < (advanced_filter_stories_json
        ((List.range 101).map (fun i => ⟨i, 0⟩)) (fun _ => ⟨[], [], []⟩)
        ⟨[], [], [], [], []⟩ 0 101).length := by
  decide

theorem run_backfill_loop_eq (kernel : List Nat → Bool)
    (B rem current : Nat) :
    run_backfill_loop kernel B rem current
      = if current = 0 then ⟨current, false, [], []⟩
        else
          let batchStart := max 1 (current - B + 1)
          let ids := List.range' batchStart (current + 1 - batchStart)
          let reached := kernel ids
          let current' := batchStart - 1
          if reached then ⟨current', true, [ids], [current']⟩
          else
            match rem with
            | 0 => ⟨current', false, [ids], [current']⟩
            | 1 => ⟨current', false, [ids], [current']⟩
            | r + 2 =>
              let rr := run_backfill_loop kernel B (r + 1) current'
              ⟨rr.current, rr.reached, ids :: rr.batches,
                current' :: rr.persisted⟩ := by
  rcases hrem : rem with _ | _ | r <;> rfl

theorem run_backfill_loop_reached (kernel : List Nat → Bool)
    (B rem c : Nat) :
    (run_backfill_loop kernel B rem c).reached = true ↔
      ∃ ids ∈ (run_backfill_loop kernel B rem c).batches,
        kernel ids = true := by
  rw [run_backfill_loop_eq]
  split
  case isTrue h => simp
  case isFalse h =>
    simp only []
    split
    case isTrue hk =>
      exact iff_of_true rfl ⟨_, List.mem_cons_self _ _, hk⟩
    case isFalse hk =>
      have hbreak : ∀ cur' : Nat,
          ((⟨cur', false,
              [List.range' (max 1 (c - B + 1)) (c + 1 - max 1 (c - B + 1))],
              [cur']⟩ : BackfillLoopResult).reached = true
            ↔ ∃ ids ∈ (⟨cur', false,
                [List.range' (max 1 (c - B + 1))
                  (c + 1 - max 1 (c - B + 1))],
                [cur']⟩ : BackfillLoopResult).batches, kernel ids = true) := by
        intro cur'
        constructor
        · intro hcon; exact absurd hcon (by simp)
        · rintro ⟨i, hi, hki⟩
          rw [List.mem_singleton] at hi
          subst hi
          exact absurd hki hk
      rcases hrem : rem with _ | _ | r
      · exact hbreak _
      · exact hbreak _
      · have ih := run_backfill_loop_reached kernel B (r + 1)
          (max 1 (c - B + 1) - 1)
        constructor
        · intro hr
          obtain ⟨i, hi, hki⟩ := ih.mp hr
          exact ⟨i, List.mem_cons_of_mem _ hi, hki⟩
        · rintro ⟨i, hi, hki⟩
          rcases List.mem_cons.mp hi with hi | hi
          · subst hi; exact absurd hki hk
          · exact ih.mpr ⟨i, hi, hki⟩
  termination_by rem
  decreasing_by omega

theorem run_backfill_loop_trace (kernel : List Nat → Bool)
    (B rem c : Nat) :
    List.Chain' (fun a b => b ≤ a)
      (c :: (run_backfill_loop kernel B rem c).persisted)
    ∧ ((run_backfill_loop kernel B rem c).persisted = [] →
        (run_backfill_loop kernel B rem c).current = c)
    ∧ ((run_backfill_loop kernel B rem c).persisted ≠ [] →
        (run_backfill_loop kernel B rem c).persisted.getLast?
          = some (run_backfill_loop kernel B rem c).current)
    ∧ (c ≠ 0 → (run_backfill_loop kernel B rem c).persisted ≠ []) := by
  have hstep : max 1 (c - B + 1) - 1 ≤ c := by omega
  rw [run_backfill_loop_eq]
  split
  case isTrue h => subst h; simp
  case isFalse h =>
    simp only []
    split
    case isTrue hk =>
      refine ⟨List.chain'_cons.mpr ⟨hstep, List.chain'_singleton _⟩,
        ?_, fun _ => rfl, fun _ => by simp⟩
      intro hcon; exact absurd hcon (by simp)
    case isFalse hk =>
      rcases hrem : rem with _ | _ | r
      · refine ⟨List.chain'_cons.mpr ⟨hstep, List.chain'_singleton _⟩,
          ?_, fun _ => rfl, fun _ => by simp⟩
        intro hcon; exact absurd hcon (by simp)
      · refine ⟨List.chain'_cons.mpr ⟨hstep, List.chain'_singleton _⟩,
          ?_, fun _ => rfl, fun _ => by simp⟩
        intro hcon; exact absurd hcon (by simp)
      · have ih := run_backfill_loop_trace kernel B (r + 1)
          (max 1 (c - B + 1) - 1)
        refine ⟨List.chain'_cons.mpr ⟨hstep, ih.1⟩,
          ?_, ?_, fun _ => by simp⟩
        · intro hcon; exact absurd hcon (by simp)
        · intro _
          dsimp only
          cases hp : (run_backfill_loop kernel B (r + 1)
              (max 1 (c - B + 1) - 1)).persisted with
          | nil =>
            have hcur := ih.2.1 hp
            rw [hcur]
            simp
          | cons a l =>
            have h3 := ih.2.2.1 (by rw [hp]; exact List.cons_ne_nil a l)
            rw [hp] at h3
            rw [List.getLast?_cons_cons]
            exact h3
  termination_by rem
  decreasing_by omega

/-- C1.  A backfill run resumed from an `active` row ends with
`status = completed` exactly when the final `current_item_id` has
reached 0 or the kernel reported `reached_target_date` on one of the
processed batches; otherwise (the run stopped at `max_batches`) the row
stays `active` at the last persisted `current_item_id`, from which the
next tick resumes. -/
theorem run_backfill_completion (kernel : List Nat → Bool)
    (B maxB c0 : Nat) :
    ((run_backfill_from kernel B maxB c0).state.status = .completed
       ↔ ((run_backfill_from kernel B maxB c0).state.current_item_id = 0
          ∨ (run_backfill_from kernel B maxB c0).reached = true))
    ∧ ((run_backfill_from kernel B maxB c0).reached = true
       ↔ ∃ ids ∈ (run_backfill_from kernel B maxB c0).batches,
           kernel ids = true)
    ∧ ((run_backfill_from kernel B maxB c0).state.status ≠ .completed →
        (run_backfill_from kernel B maxB c0).state.status = .active
        ∧ (run_backfill_from kernel B maxB c0).persisted.getLast?
            = some (run_backfill_from kernel B maxB c0).state.current_item_id
        ∧ (run_backfill_from kernel B maxB c0).state.current_item_id ≠ 0) := by
  have hr := run_backfill_loop_reached kernel B maxB c0
  have ht := run_backfill_loop_trace kernel B maxB c0
  unfold run_backfill_from
  by_cases h : (run_backfill_loop kernel B maxB c0).current = 0
      ∨ (run_backfill_loop kernel B maxB c0).reached = true
  · rw [if_pos h]
    exact ⟨iff_of_true rfl h, hr, fun hcon => absurd rfl hcon⟩
  · rw [if_neg h]
    push_neg at h
    refine ⟨iff_of_false (fun hh => ScraperStatus.noConfusion hh) ?_,
      hr, fun _ => ⟨rfl, ?_, h.1⟩⟩
    · intro hor
      rcases hor with h0 | hre
      · exact h.1 h0
      · exact h.2 hre
    · have hc0 : c0 ≠ 0 := by
        intro hc
        subst hc
        refine h.1 ?_
        rw [run_backfill_loop_eq]
        simp
      exact ht.2.2.1 (ht.2.2.2 hc0)

/-- Witness for C1: kernel never reports the target, `max_batches = 1`,
start at 25 with batch size 10 — the run stops `active` at 15. -/
theorem run_backfill_completion_witness :
    (run_backfill_from (fun _ => false) 10 1 25).state.status
        ≠ ScraperStatus.completed
    ∧ (run_backfill_from (fun _ => false) 10 1 25).state.status
        = ScraperStatus.active
    ∧ (run_backfill_from (fun _ => false) 10 1 25).persisted.getLast?
        = some (run_backfill_from (fun _ => false) 10 1 25).state.current_item_id
    ∧ (run_backfill_from (fun _ => false) 10 1 25).state.current_item_id ≠ 0 :=
  ⟨by decide,
   (run_backfill_completion (fun _ => false) 10 1 25).2.2 (by decide)⟩

theorem mem_of_getLast?_eq {l : List Nat} {a : Nat}
    (h : l.getLast? = some a) : a ∈ l := by
  have hx : a ∈ l.getLast? := by simp [h]
  obtain ⟨hne, heq⟩ := List.mem_getLast?_eq_getLast hx
  exact heq ▸ List.getLast_mem hne

theorem chain'_ge_head {c : Nat} {l : List Nat}
    (h : List.Chain' (fun a b => b ≤ a) (c :: l)) : ∀ x ∈ l, x ≤ c := by
  haveI : IsTrans Nat (fun a b : Nat => b ≤ a) :=
    ⟨fun _ _ _ h1 h2 => le_trans h2 h1⟩
  have hp := List.chain'_iff_pairwise.mp h
  exact fun x hx => (List.pairwise_cons.mp hp).1 x hx

theorem chain'_le_head {c : Nat} {l : List Nat}
    (h : List.Chain' (fun a b => a ≤ b) (c :: l)) : ∀ x ∈ l, c ≤ x := by
  haveI : IsTrans Nat (fun a b : Nat => a ≤ b) :=
    ⟨fun _ _ _ h1 h2 => le_trans h1 h2⟩
  have hp := List.chain'_iff_pairwise.mp h
  exact fun x hx => (List.pairwise_cons.mp hp).1 x hx

theorem run_backfill_from_trace (kernel : List Nat → Bool)
    (B maxB c0 : Nat) :
    List.Chain' (fun a b => b ≤ a)
      (c0 :: (run_backfill_from kernel B maxB c0).persisted)
    ∧ (run_backfill_from kernel B maxB c0).state.current_item_id ≤ c0 := by
  have ht := run_backfill_loop_trace kernel B maxB c0
  have hcur : (run_backfill_loop kernel B maxB c0).current ≤ c0 := by
    cases hp : (run_backfill_loop kernel B maxB c0).persisted with
    | nil => exact le_of_eq (ht.2.1 hp)
    | cons a l =>
      have hgl := ht.2.2.1 (by rw [hp]; exact List.cons_ne_nil a l)
      have hmem := mem_of_getLast?_eq hgl
      exact chain'_ge_head ht.1 _ hmem
  have happ : List.Chain' (fun a b => b ≤ a)
      ((c0 :: (run_backfill_loop kernel B maxB c0).persisted)
        ++ [(run_backfill_loop kernel B maxB c0).current]) := by
    rw [List.chain'_append]
    refine ⟨ht.1, List.chain'_singleton _, ?_⟩
    intro x hx y hy
    cases hp : (run_backfill_loop kernel B maxB c0).persisted with
    | nil =>
      rw [hp] at hx
      simp only [List.getLast?_singleton, Option.mem_def,
        Option.some.injEq] at hx
      simp only [List.head?_cons, Option.mem_def, Option.some.injEq] at hy
      subst hx; subst hy
      exact hcur
    | cons a l =>
      rw [hp, List.getLast?_cons_cons] at hx
      have hgl := ht.2.2.1 (by rw [hp]; exact List.cons_ne_nil a l)
      rw [hp] at hgl
      rw [hgl] at hx
      simp only [Option.mem_def, Option.some.injEq] at hx
      simp only [List.head?_cons, Option.mem_def, Option.some.injEq] at hy
      subst hx; subst hy
      exact le_refl _
  unfold run_backfill_from
  by_cases h : (run_backfill_loop kernel B maxB c0).current = 0
      ∨ (run_backfill_loop kernel B maxB c0).reached = true
  · rw [if_pos h]
    exact ⟨by simpa using happ, hcur⟩
  · rw [if_neg h]
    exact ⟨ht.1, hcur⟩

theorem run_backfill_from_status (kernel : List Nat → Bool)
    (B maxB c0 : Nat) :
    (run_backfill_from kernel B maxB c0).state.status ≠ .paused := by
  unfold run_backfill_from
  by_cases h : (run_backfill_loop kernel B maxB c0).current = 0
      ∨ (run_backfill_loop kernel B maxB c0).reached = true
  · rw [if_pos h]; simp
  · rw [if_neg h]; simp

theorem backfill_tick_mono (kernel : List Nat → Bool) (B maxB : Nat)
    (maxItem : Option Nat) (st : ScraperState) (h : st.status ≠ .paused) :
    (backfill_tick kernel B maxB maxItem st).current_item_id
      ≤ st.current_item_id
    ∧ (backfill_tick kernel B maxB maxItem st).status ≠ .paused := by
  unfold backfill_tick
  cases hs : st.status with
  | completed => exact ⟨le_refl _, by simp [hs]⟩
  | active =>
    exact ⟨(run_backfill_from_trace kernel B maxB st.current_item_id).2,
      run_backfill_from_status kernel B maxB st.current_item_id⟩
  | paused => exact absurd hs h

theorem backfill_ticks_mono (ticks : List ((List Nat → Bool) × Option Nat))
    (B maxB : Nat) : ∀ st : ScraperState, st.status ≠ .paused →
    (backfill_ticks ticks B maxB st).current_item_id
      ≤ st.current_item_id := by
  induction ticks with
  | nil => intro st _; exact le_refl _
  | cons t ts ih =>
    intro st hst
    have h1 := backfill_tick_mono t.1 B maxB t.2 st hst
    exact le_trans (ih _ h1.2) h1.1

theorem continuous_loop_chain (B maxItem : Nat) :
    ∀ fuel cid, List.Chain' (fun a b => a ≤ b)
      ((cid - 1) :: continuous_loop B maxItem cid fuel) := by
  intro fuel
  induction fuel with
  | zero => intro cid; rw [continuous_loop]; exact List.chain'_singleton _
  | succ f ih =>
    intro cid
    rw [continuous_loop]
    split
    case isTrue h =>
      refine List.chain'_cons.mpr ⟨by omega, ?_⟩
      have := ih (Nat.min (cid + B - 1) maxItem + 1)
      simpa using this
    case isFalse h => exact List.chain'_singleton _

theorem continuous_tick_mono (B maxItem fuel : Nat) (st : ScraperState) :
    List.Chain' (fun a b => a ≤ b)
      (st.current_item_id :: (continuous_tick B maxItem fuel st).2)
    ∧ st.current_item_id
        ≤ (continuous_tick B maxItem fuel st).1.current_item_id := by
  unfold continuous_tick
  by_cases h : st.current_item_id < maxItem
  · rw [if_pos h]
    have hch : List.Chain' (fun a b => a ≤ b)
        (st.current_item_id ::
          continuous_loop B maxItem (st.current_item_id + 1) fuel) := by
      have := continuous_loop_chain B maxItem fuel (st.current_item_id + 1)
      simpa using this
    cases hgl : (continuous_loop B maxItem
        (st.current_item_id + 1) fuel).getLast? with
    | none => exact ⟨hch, le_refl _⟩
    | some last =>
      exact ⟨hch, chain'_le_head hch _ (mem_of_getLast?_eq hgl)⟩
  · rw [if_neg h]
    exact ⟨List.chain'_singleton _, le_refl _⟩

theorem continuous_ticks_mono (params : List (Nat × Nat)) (B : Nat) :
    ∀ st : ScraperState, st.current_item_id
      ≤ (continuous_ticks params B st).current_item_id := by
  induction params with
  | nil => intro st; exact le_refl _
  | cons p ps ih =>
    intro st
    exact le_trans (continuous_tick_mono B p.1 p.2 st).2 (ih _)

/-- C2.  Monotonic state: within a backfill run the persisted
`current_item_id` trace is non-increasing from the resume point (each
batch persists `batch_start - 1`), and across any sequence of backfill
ticks the state's `current_item_id` never increases; within a
continuous tick the persisted trace is non-decreasing (each forward
batch persists `batch_end`, at least the previous value), and across any
sequence of continuous ticks the state's `current_item_id` never
decreases. -/
theorem scraper_state_monotonic (kernel : List Nat → Bool)
    (B maxB c0 : Nat) (ticks : List ((List Nat → Bool) × Option Nat))
    (st : ScraperState) (hst : st.status ≠ .paused)
    (B2 maxItem fuel : Nat) (params : List (Nat × Nat))
    (st2 : ScraperState) :
    List.Chain' (fun a b => b ≤ a)
      (c0 :: (run_backfill_from kernel B maxB c0).persisted)
    ∧ (run_backfill_from kernel B maxB c0).state.current_item_id ≤ c0
    ∧ (backfill_ticks ticks B maxB st).current_item_id
        ≤ st.current_item_id
    ∧ List.Chain' (fun a b => a ≤ b)
        (st2.current_item_id :: (continuous_tick B2 maxItem fuel st2).2)
    ∧ st2.current_item_id
        ≤ (continuous_tick B2 maxItem fuel st2).1.current_item_id
    ∧ st2.current_item_id
        ≤ (continuous_ticks params B2 st2).current_item_id :=
  ⟨(run_backfill_from_trace kernel B maxB c0).1,
   (run_backfill_from_trace kernel B maxB c0).2,
   backfill_ticks_mono ticks B maxB st hst,
   (continuous_tick_mono B2 maxItem fuel st2).1,
   (continuous_tick_mono B2 maxItem fuel st2).2,
   continuous_ticks_mono params B2 st2⟩

/-- Witness for C2: concrete backfill and continuous ticks. -/
theorem scraper_state_monotonic_witness :
    (⟨10, .active⟩ : ScraperState).status ≠ ScraperStatus.paused
    ∧ (backfill_ticks [(fun _ => false, none)] 3 2
        ⟨10, .active⟩).current_item_id ≤ 10
    ∧ (9 : Nat) ≤ (continuous_ticks [(12, 5)] 1
        ⟨9, .active⟩).current_item_id :=
  ⟨by decide,
   (scraper_state_monotonic (fun _ => false) 3 2 10
     [(fun _ => false, none)] ⟨10, .active⟩ (by decide) 1 12 5 [(12, 5)]
     ⟨9, .active⟩).2.2.1,
   (scraper_state_monotonic (fun _ => false) 3 2 10
     [(fun _ => false, none)] ⟨10, .active⟩ (by decide) 1 12 5 [(12, 5)]
     ⟨9, .active⟩).2.2.2.2.2⟩

theorem merge_step_no_tag (target src t0 : Nat) (h0 : t0 ≠ target)
    (pairs : List (Nat × Nat)) (h : ∀ p ∈ pairs, p.2 ≠ t0) :
    ∀ p ∈ merge_step target pairs src, p.2 ≠ t0 := by
  intro p hp
  unfold merge_step at hp
  obtain ⟨q, hq, hfq⟩ := List.mem_map.mp hp
  have hq' := (List.mem_filter.mp hq).1
  by_cases hqs : q.2 = src
  · rw [if_pos hqs] at hfq
    subst hfq
    exact fun hh => h0 hh.symm
  · rw [if_neg hqs] at hfq
    subst hfq
    exact h q hq'

theorem merge_step_kills_src (target src : Nat) (hs : src ≠ target)
    (pairs : List (Nat × Nat)) :
    ∀ p ∈ merge_step target pairs src, p.2 ≠ src := by
  intro p hp
  unfold merge_step at hp
  obtain ⟨q, hq, hfq⟩ := List.mem_map.mp hp
  by_cases hqs : q.2 = src
  · rw [if_pos hqs] at hfq
    subst hfq
    exact fun hh => hs hh.symm
  · rw [if_neg hqs] at hfq
    subst hfq
    exact hqs

theorem merge_step_mem_of_ne (target src : Nat) (pairs : List (Nat × Nat))
    (s t0 : Nat) (hne : t0 ≠ src) (hmem : (s, t0) ∈ pairs) :
    (s, t0) ∈ merge_step target pairs src := by
  unfold merge_step
  apply List.mem_map.mpr
  refine ⟨(s, t0), ?_, by simp [hne]⟩
  apply List.mem_filter.mpr
  exact ⟨hmem, by simp [hne]⟩

theorem merge_step_target_mem (target src : Nat) (hs : src ≠ target)
    (pairs : List (Nat × Nat)) (s : Nat) (hmem : (s, target) ∈ pairs) :
    (s, target) ∈ merge_step target pairs src :=
  merge_step_mem_of_ne target src pairs s target (Ne.symm hs) hmem

theorem merge_pairs_no_tag (target t0 : Nat) (h0 : t0 ≠ target) :
    ∀ (sources : List Nat) (pairs : List (Nat × Nat)),
      (∀ p ∈ pairs, p.2 ≠ t0) →
      ∀ p ∈ merge_pairs target sources pairs, p.2 ≠ t0 := by
  intro sources
  induction sources with
  | nil => intro pairs h p hp; exact h p hp
  | cons src ss ih =>
    intro pairs h p hp
    exact ih (merge_step target pairs src)
      (merge_step_no_tag target src t0 h0 pairs h) p hp

theorem merge_pairs_no_source (target : Nat) :
    ∀ (sources : List Nat), target ∉ sources →
    ∀ (pairs : List (Nat × Nat)) (p : Nat × Nat),
      p ∈ merge_pairs target sources pairs → p.2 ∉ sources := by
  intro sources
  induction sources with
  | nil => intro _ _ p _ hmem; simp at hmem
  | cons src ss ih =>
    intro hT pairs p hp hmem
    have hsT : src ≠ target := fun hh => hT (hh ▸ List.mem_cons_self _ _)
    have hTs : target ∉ ss := fun hh => hT (List.mem_cons_of_mem _ hh)
    rcases List.mem_cons.mp hmem with rfl | hmem'
    · exact merge_pairs_no_tag target p.2 hsT ss
        (merge_step target pairs p.2)
        (merge_step_kills_src target p.2 hsT pairs) p hp rfl
    · exact ih hTs (merge_step target pairs src) p hp hmem'

theorem merge_pairs_target_mem (target : Nat) :
    ∀ (sources : List Nat) (pairs : List (Nat × Nat)) (s : Nat),
      target ∉ sources → (s, target) ∈ pairs →
      (s, target) ∈ merge_pairs target sources pairs := by
  intro sources
  induction sources with
  | nil => intro pairs s _ h; exact h
  | cons src ss ih =>
    intro pairs s hT h
    have hsT : src ≠ target := fun hh => hT (hh ▸ List.mem_cons_self _ _)
    have hTs : target ∉ ss := fun hh => hT (List.mem_cons_of_mem _ hh)
    exact ih (merge_step target pairs src) s hTs
      (merge_step_target_mem target src hsT pairs s h)

theorem merge_pairs_repoint (target : Nat) :
    ∀ (sources : List Nat) (pairs : List (Nat × Nat)) (s src0 : Nat),
      target ∉ sources → src0 ∈ sources → (s, src0) ∈ pairs →
      (s, target) ∈ merge_pairs target sources pairs := by
  intro sources
  induction sources with
  | nil => intro _ _ _ _ h _; simp at h
  | cons src ss ih =>
    intro pairs s src0 hT hsrc0 hmem
    have hsT : src ≠ target := fun hh => hT (hh ▸ List.mem_cons_self _ _)
    have hTs : target ∉ ss := fun hh => hT (List.mem_cons_of_mem _ hh)
    by_cases hss : src0 = src
    · subst hss
      apply merge_pairs_target_mem target ss (merge_step target pairs src0)
        s hTs
      by_cases hdup : (s, target) ∈ pairs
      · exact merge_step_target_mem target src0 hsT pairs s hdup
      · unfold merge_step
        apply List.mem_map.mpr
        refine ⟨(s, src0), ?_, by simp⟩
        apply List.mem_filter.mpr
        refine ⟨hmem, ?_⟩
        have hany : pairs.any (fun q => q.1 == s && q.2 == target)
            = false := by
          rw [List.any_eq_false]
          rintro ⟨q1, q2⟩ hq hqp
          simp only [Bool.and_eq_true, beq_iff_eq] at hqp
          obtain ⟨rfl, rfl⟩ := hqp
          exact hdup hq
        simp [hany]
    · have hsrc0' : src0 ∈ ss := by
        rcases List.mem_cons.mp hsrc0 with hh | hh
        · exact absurd hh hss
        · exact hh
      exact ih (merge_step target pairs src) s src0 hTs hsrc0'
        (merge_step_mem_of_ne target src pairs s src0 hss hmem)

theorem merge_step_nodup (target src : Nat) (pairs : List (Nat × Nat))
    (h : pairs.Nodup) : (merge_step target pairs src).Nodup := by
  unfold merge_step
  refine List.Nodup.map_on ?_ (h.filter _)
  intro x hx y hy hfxy
  have hxp := List.mem_filter.mp hx
  have hyp := List.mem_filter.mp hy
  by_cases hxs : x.2 = src <;> by_cases hys : y.2 = src
  · rw [if_pos hxs, if_pos hys] at hfxy
    have hfxy' : (x.1, target) = (y.1, target) := hfxy
    rw [Prod.mk.injEq] at hfxy'
    have h2 : x.2 = y.2 := hxs.trans hys.symm
    calc x = (x.1, x.2) := rfl
      _ = (y.1, y.2) := by rw [hfxy'.1, h2]
      _ = y := rfl
  · exfalso
    rw [if_pos hxs, if_neg hys] at hfxy
    have hfxy' : (x.1, target) = (y.1, y.2) := hfxy
    rw [Prod.mk.injEq] at hfxy'
    have hcond := hxp.2
    simp only [hxs, beq_self_eq_true, Bool.true_and,
      Bool.not_eq_true'] at hcond
    rw [List.any_eq_false] at hcond
    exact hcond y hyp.1 (by simp [hfxy'.1.symm, hfxy'.2])
  · exfalso
    rw [if_neg hxs, if_pos hys] at hfxy
    have hfxy' : (x.1, x.2) = (y.1, target) := hfxy
    rw [Prod.mk.injEq] at hfxy'
    have hcond := hyp.2
    simp only [hys, beq_self_eq_true, Bool.true_and,
      Bool.not_eq_true'] at hcond
    rw [List.any_eq_false] at hcond
    exact hcond x hxp.1 (by simp [hfxy'.1, hfxy'.2])
  · rw [if_neg hxs, if_neg hys] at hfxy
    exact hfxy

theorem merge_pairs_nodup (target : Nat) :
    ∀ (sources : List Nat) (pairs : List (Nat × Nat)),
      pairs.Nodup → (merge_pairs target sources pairs).Nodup := by
  intro sources
  induction sources with
  | nil => intro pairs h; exact h
  | cons src ss ih =>
    intro pairs h
    exact ih (merge_step target pairs src) (merge_step_nodup target src pairs h)

/-- Write phase of `_execute_merge` on resolved ids: afterwards no tag
row and no `story_tags` row references a source id; every story that
carried a source tag now carries the target; the pairs stay
duplicate-free; and the target's `usage_count` is recomputed as the
number of rows referencing it. -/
theorem execute_merge_writes_spec (db : TagDb) (source_ids : List Nat)
    (target : Nat) (hT : target ∉ source_ids) (hnd : db.pairs.Nodup) :
    (∀ t ∈ (execute_merge_writes db source_ids target).tags,
        t.id ∉ source_ids)
    ∧ (∀ p ∈ (execute_merge_writes db source_ids target).pairs,
        p.2 ∉ source_ids)
    ∧ (∀ s src, src ∈ source_ids → (s, src) ∈ db.pairs →
        (s, target) ∈ (execute_merge_writes db source_ids target).pairs)
    ∧ (execute_merge_writes db source_ids target).pairs.Nodup
    ∧ (∀ t ∈ (execute_merge_writes db source_ids target).tags,
        t.id = target →
          t.usage_count
            = ((execute_merge_writes db source_ids target).pairs.filter
                (fun p => p.2 == target)).length) := by
  refine ⟨?_, ?_, ?_, ?_, ?_⟩
  · intro t ht
    unfold execute_merge_writes at ht
    obtain ⟨t0, ht0, hft⟩ := List.mem_map.mp ht
    have ht0' := List.mem_filter.mp ht0
    have hid : t.id = t0.id := by
      by_cases hq : t0.id = target
      · rw [if_pos hq] at hft; subst hft; rfl
      · rw [if_neg hq] at hft; subst hft; rfl
    rw [hid]
    intro hcon
    have hfalse := ht0'.2
    simp at hfalse
    exact hfalse hcon
  · exact fun p hp =>
      merge_pairs_no_source target source_ids hT db.pairs p hp
  · exact fun s src hsrc hmem =>
      merge_pairs_repoint target source_ids db.pairs s src hT hsrc hmem
  · exact merge_pairs_nodup target source_ids db.pairs hnd
  · intro t ht htid
    unfold execute_merge_writes at ht ⊢
    obtain ⟨t0, ht0, hft⟩ := List.mem_map.mp ht
    by_cases hq : t0.id = target
    · rw [if_pos hq] at hft
      subst hft
      rfl
    · rw [if_neg hq] at hft
      subst hft
      exact absurd htid hq

/-- Counterexample for C3: in the literal scenario 4 the rows `python`
and `Python` share the slug `python`, so `_get_or_create_tag("Python")`
runs `scalar_one_or_none()` over two matching rows and the merge raises
`MultipleResultsFound` (uncaught by the endpoint's `ValueError`
handler): no write phase runs and `usage_count 25` is never produced. -/
theorem execute_merge_scenario_raises :
    execute_merge 3 ["python"] "Python" false mergeScenarioDb
      = .error "MultipleResultsFound" := rfl

/-- C3.  `_execute_merge` resolves names to rows by normalized slug.
When the target name resolves (via `scalar_one_or_none`) to a single
existing row `tgt`, the source names select rows `srcs` whose ids do
not include `tgt.id`, and `story_tags` is duplicate-free, execution
returns `success` with the write phase applied: afterwards no tag row
and no `story_tags` row references a source id; every story that
carried a source tag now carries `tgt`; the pairs stay duplicate-free
(rows whose story already had `tgt` are deleted, not re-pointed); and
`tgt.usage_count` is recomputed as the number of rows referencing it.
In the literal `python`/`Python` scenario both names normalize to the
same slug and the target lookup instead raises `MultipleResultsFound`
(see `execute_merge_scenario_raises`). -/
theorem execute_merge_correct (db : TagDb) (nextId : Nat)
    (source_names : List String) (target_name : String)
    (tgt : TagModel) (srcs : List TagModel)
    (hsn : source_names.isEmpty = false)
    (htn : (target_name == "") = false)
    (hres : get_tag_by_name db.tags target_name = .ok (some tgt))
    (hsrcs : get_tags_by_names db.tags source_names = srcs)
    (hne : (srcs.map (fun t => t.id)).isEmpty = false)
    (hT : tgt.id ∉ srcs.map (fun t => t.id))
    (hnd : db.pairs.Nodup) :
    execute_merge nextId source_names target_name false db
      = .ok (execute_merge_writes db (srcs.map (fun t => t.id)) tgt.id,
          "success")
    ∧ (∀ t ∈ (execute_merge_writes db (srcs.map (fun t => t.id))
          tgt.id).tags, t.id ∉ srcs.map (fun t => t.id))
    ∧ (∀ p ∈ (execute_merge_writes db (srcs.map (fun t => t.id))
          tgt.id).pairs, p.2 ∉ srcs.map (fun t => t.id))
    ∧ (∀ s src, src ∈ srcs.map (fun t => t.id) → (s, src) ∈ db.pairs →
        (s, tgt.id) ∈ (execute_merge_writes db
          (srcs.map (fun t => t.id)) tgt.id).pairs)
    ∧ (execute_merge_writes db (srcs.map (fun t => t.id)) tgt.id).pairs.Nodup
    ∧ (∀ t ∈ (execute_merge_writes db (srcs.map (fun t => t.id))
          tgt.id).tags, t.id = tgt.id →
          t.usage_count
            = ((execute_merge_writes db (srcs.map (fun t => t.id))
                tgt.id).pairs.filter (fun p => p.2 == tgt.id)).length) := by
  have hmain := execute_merge_writes_spec db (srcs.map (fun t => t.id))
    tgt.id hT hnd
  refine ⟨?_, hmain.1, hmain.2.1, hmain.2.2.1, hmain.2.2.2.1,
    hmain.2.2.2.2⟩
  have e1 : reorganizer_get_or_create_tag nextId db.tags target_name
      = .ok (tgt, db.tags, nextId) := by
    unfold reorganizer_get_or_create_tag
    rw [hres]
  have hcond : ¬((source_names.isEmpty || (target_name == "")) = true) := by
    rw [hsn, htn]; simp
  unfold execute_merge
  rw [if_neg hcond, e1]
  dsimp only
  rw [hsrcs]
  have hcond2 : ¬((srcs.map (fun t => t.id)).isEmpty = true) := by
    rw [hne]; simp
  rw [if_neg hcond2]
  rfl

/-- Witness for C3: the unambiguous spelling of scenario 4 — source
`Py` (row 1, slug `py`, 5 disjoint stories), target `Python` (row 2,
slug `python`, 20 stories).  Name resolution selects row 1 as the only
source and row 2 as the target, the merge succeeds, 25 rows end on
tag 2 and the recomputed usage is 25. -/
theorem execute_merge_correct_witness :
    get_tags_by_names mergeResolvedDb.tags ["Py"]
        = [⟨1, "Py", "py", 3, none, true, 5⟩]
    ∧ execute_merge 3 ["Py"] "Python" false mergeResolvedDb
        = .ok (execute_merge_writes mergeResolvedDb [1] 2, "success")
    ∧ ((execute_merge_writes mergeResolvedDb [1] 2).pairs.filter
        (fun p => p.2 == 2)).length = 25
    ∧ (∀ t ∈ (execute_merge_writes mergeResolvedDb [1] 2).tags,
        t.id = 2 → t.usage_count = 25) :=
  ⟨by decide,
   (execute_merge_correct mergeResolvedDb 3 ["Py"] "Python"
     ⟨2, "Python", "python", 2, some "Tech Stacks", false, 20⟩
     [⟨1, "Py", "py", 3, none, true, 5⟩]
     (by decide) (by decide) (by rfl) (by decide) (by decide)
     (by decide) (by decide)).1,
   by decide, by decide⟩

theorem stepA_inv (s : RaceState) (h : RaceInv s) : RaceInv (stepA s) := by
  obtain ⟨pcA, pcB, lockFree, lockByA, db, bufA, bufB, resA, resB⟩ := s
  unfold RaceInv at h ⊢
  dsimp only at h ⊢
  obtain ⟨h1, h2, h3, h4, h5, h6, h7, h8, h9, h10, h11, h12, h13, h14, h15,
    h16, h17, h18⟩ := h
  unfold stepA
  dsimp only
  rcases pcA with _ | _ | _ | n
  · -- pc 0: acquire (or blocked)
    cases lockFree
    · exact ⟨h1, h2, h3, h4, h5, h6, h7, h8, h9, h10, h11, h12, h13, h14,
        h15, h16, h17, h18⟩
    · rw [if_pos rfl]
      dsimp only
      obtain ⟨hres, hbuf⟩ := h5 (by omega)
      subst hres; subst hbuf
      have hBnot : ¬(pcB = 1 ∨ pcB = 2) :=
        fun hB => Bool.noConfusion (h4 hB).1
      refine ⟨by omega, h2, fun _ => ⟨rfl, rfl⟩,
        fun hB => absurd hB hBnot,
        fun _ => ⟨rfl, rfl⟩, h6,
        fun hh => absurd hh (by omega),
        h8,
        fun hh => absurd hh (by omega),
        h10, h11,
        fun hh => absurd hh.1 (by omega),
        h13,
        fun hh => absurd hh.1 (by omega),
        h15, h16, ?_, h18⟩
      intro hh; exact absurd hh (by simp)
  · -- pc 1: existence check under the lock
    obtain ⟨hlf, hlb⟩ := h3 (Or.inl rfl)
    subst hlf; subst hlb
    obtain ⟨hres, hbuf⟩ := h5 (by omega)
    subst hres; subst hbuf
    have hBnot : ¬(pcB = 1 ∨ pcB = 2) :=
      fun hB => Bool.noConfusion (h4 hB).2
    by_cases hdb : db = 0
    · rw [if_pos hdb]
      subst hdb
      dsimp only
      refine ⟨by omega, h2, fun _ => ⟨rfl, rfl⟩,
        fun hB => absurd hB hBnot,
        fun hh => absurd hh (by omega),
        h6,
        fun _ => ⟨iff_of_true rfl rfl, rfl⟩,
        h8,
        fun hh => absurd hh (by omega),
        h10, h11,
        fun _ => rfl,
        h13,
        fun hh => absurd hh.2 (by simp),
        fun hh => absurd (Or.inr hh.1) hBnot,
        ?_,
        fun hh => absurd hh (by simp),
        fun _ => rfl⟩
      rintro ⟨-, hBtrue⟩
      subst hBtrue
      interval_cases pcB
      · exact absurd (h6 (by omega)).1 (by simp)
      · exact absurd (h6 (by omega)).1 (by simp)
      · exact hBnot (Or.inr rfl)
      · simp [raceCnt] at h11
    · rw [if_neg hdb]
      dsimp only
      have hcl17 : raceCnt pcB resB ≠ 0 → resB = some true := by
        intro hcnt
        unfold raceCnt at hcnt
        by_cases hcond : pcB = 3 ∧ resB = some true
        · exact hcond.2
        · rw [if_neg hcond] at hcnt; exact absurd rfl hcnt
      refine ⟨by omega, h2, fun _ => ⟨rfl, rfl⟩,
        fun hB => absurd hB hBnot,
        fun hh => absurd hh (by omega),
        h6,
        fun _ => ⟨iff_of_false (by simp) (by simp), rfl⟩,
        h8,
        fun hh => absurd hh (by omega),
        h10, h11,
        fun hh => absurd hh.2 (by simp),
        h13,
        fun _ => hdb,
        h15,
        fun hh => absurd hh.1 (by simp),
        fun _ => ?_,
        fun hBf => absurd (h18 hBf) (by simp)⟩
      apply hcl17
      intro hcnt0
      apply hdb
      rw [h11, hcnt0]
      simp [raceCnt]
  · -- pc 2: commit and release
    obtain ⟨hlf, hlb⟩ := h3 (Or.inr rfl)
    subst hlf; subst hlb
    have hBnot : ¬(pcB = 1 ∨ pcB = 2) :=
      fun hB => Bool.noConfusion (h4 hB).2
    obtain ⟨hiff, hsome⟩ := h7 rfl
    dsimp only
    cases bufA
    · -- no insert buffered: the check had found a row
      have hresf : resA = some false := by
        rcases resA with _ | rA
        · exact absurd hsome (by simp)
        · cases rA
          · rfl
          · exact absurd (hiff.mp rfl) (by simp)
      subst hresf
      refine ⟨by omega, h2,
        fun hh => absurd hh (by omega),
        fun hB => absurd hB hBnot,
        fun hh => absurd hh (by omega),
        h6,
        fun hh => absurd hh (by omega),
        h8,
        fun _ => rfl,
        h10, h11,
        fun hh => absurd hh.1 (by omega),
        fun hh => absurd (Or.inr hh.1) hBnot,
        fun hh => absurd hh.1 (by omega),
        fun hh => absurd (Or.inr hh.1) hBnot,
        fun hh => absurd hh.1 (by simp),
        fun _ => h17 rfl,
        ?_⟩
      intro hBf
      have := h17 rfl
      rw [hBf] at this
      exact absurd this (by simp)
    · -- insert buffered: the check had seen the empty table
      have hrest : resA = some true := hiff.mpr rfl
      subst hrest
      have hdb0 : db = 0 := h12 ⟨rfl, rfl⟩
      subst hdb0
      have hcntB : raceCnt pcB resB = 0 := by
        by_cases hcond : pcB = 3 ∧ resB = some true
        · exfalso
          have h0 := h11
          unfold raceCnt at h0
          rw [if_neg (show ¬((2 : Nat) = 3 ∧ (some true : Option Bool)
              = some true) by simp), if_pos hcond] at h0
          exact absurd h0 (by simp)
        · unfold raceCnt
          rw [if_neg hcond]
      refine ⟨by omega, h2,
        fun hh => absurd hh (by omega),
        fun hB => absurd hB hBnot,
        fun hh => absurd hh (by omega),
        h6,
        fun hh => absurd hh (by omega),
        h8,
        fun _ => rfl,
        h10, ?_,
        fun hh => absurd hh.1 (by omega),
        fun hh => absurd (Or.inr hh.1) hBnot,
        fun hh => absurd hh.1 (by omega),
        fun hh => absurd (Or.inr hh.1) hBnot,
        fun hh => h16 ⟨rfl, hh.2⟩,
        fun hh => absurd hh (by simp),
        fun _ => rfl⟩
      rw [hcntB]
      simp [raceCnt]
  · -- pc ≥ 3: done, no change
    exact ⟨h1, h2, h3, h4, h5, h6, h7, h8, h9, h10, h11, h12, h13, h14,
      h15, h16, h17, h18⟩

theorem stepB_inv (s : RaceState) (h : RaceInv s) : RaceInv (stepB s) := by
  obtain ⟨pcA, pcB, lockFree, lockByA, db, bufA, bufB, resA, resB⟩ := s
  unfold RaceInv at h ⊢
  dsimp only at h ⊢
  obtain ⟨h1, h2, h3, h4, h5, h6, h7, h8, h9, h10, h11, h12, h13, h14, h15,
    h16, h17, h18⟩ := h
  unfold stepB
  dsimp only
  rcases pcB with _ | _ | _ | n
  · -- pc 0: acquire (or blocked)
    cases lockFree
    · exact ⟨h1, h2, h3, h4, h5, h6, h7, h8, h9, h10, h11, h12, h13, h14,
        h15, h16, h17, h18⟩
    · rw [if_pos rfl]
      dsimp only
      obtain ⟨hres, hbuf⟩ := h6 (by omega)
      subst hres; subst hbuf
      have hAnot : ¬(pcA = 1 ∨ pcA = 2) :=
        fun hA => Bool.noConfusion (h3 hA).1
      refine ⟨h1, by omega,
        fun hA => absurd hA hAnot,
        fun _ => ⟨rfl, rfl⟩,
        h5,
        fun _ => ⟨rfl, rfl⟩,
        h7,
        fun hh => absurd hh (by omega),
        h9,
        fun hh => absurd hh (by omega),
        h11, h12,
        fun hh => absurd hh.1 (by omega),
        h14,
        fun hh => absurd hh.1 (by omega),
        h16, h17, ?_⟩
      intro hh; exact absurd hh (by simp)
  · -- pc 1: existence check under the lock
    obtain ⟨hlf, hlb⟩ := h4 (Or.inl rfl)
    subst hlf; subst hlb
    obtain ⟨hres, hbuf⟩ := h6 (by omega)
    subst hres; subst hbuf
    have hAnot : ¬(pcA = 1 ∨ pcA = 2) :=
      fun hA => Bool.noConfusion (h3 hA).2
    by_cases hdb : db = 0
    · rw [if_pos hdb]
      subst hdb
      dsimp only
      refine ⟨h1, by omega,
        fun hA => absurd hA hAnot,
        fun _ => ⟨rfl, rfl⟩,
        h5,
        fun hh => absurd hh (by omega),
        h7,
        fun _ => ⟨iff_of_true rfl rfl, rfl⟩,
        h9,
        fun hh => absurd hh (by omega),
        h11, h12,
        fun _ => rfl,
        fun hh => absurd (Or.inr hh.1) hAnot,
        fun hh => absurd hh.2 (by simp),
        ?_,
        fun _ => rfl,
        fun hh => absurd hh (by simp)⟩
      rintro ⟨hAtrue, -⟩
      subst hAtrue
      interval_cases pcA
      · exact absurd (h5 (by omega)).1 (by simp)
      · exact absurd (h5 (by omega)).1 (by simp)
      · exact hAnot (Or.inr rfl)
      · simp [raceCnt] at h11
    · rw [if_neg hdb]
      dsimp only
      have hcl18 : raceCnt pcA resA ≠ 0 → resA = some true := by
        intro hcnt
        unfold raceCnt at hcnt
        by_cases hcond : pcA = 3 ∧ resA = some true
        · exact hcond.2
        · rw [if_neg hcond] at hcnt; exact absurd rfl hcnt
      refine ⟨h1, by omega,
        fun hA => absurd hA hAnot,
        fun _ => ⟨rfl, rfl⟩,
        h5,
        fun hh => absurd hh (by omega),
        h7,
        fun _ => ⟨iff_of_false (by simp) (by simp), rfl⟩,
        h9,
        fun hh => absurd hh (by omega),
        h11, h12,
        fun hh => absurd hh.2 (by simp),
        h14,
        fun _ => hdb,
        fun hh => absurd hh.2 (by simp),
        fun hAf => absurd (h17 hAf) (by simp),
        fun _ => ?_⟩
      apply hcl18
      intro hcnt0
      apply hdb
      rw [h11, hcnt0]
      simp [raceCnt]
  · -- pc 2: commit and release
    obtain ⟨hlf, hlb⟩ := h4 (Or.inr rfl)
    subst hlf; subst hlb
    have hAnot : ¬(pcA = 1 ∨ pcA = 2) :=
      fun hA => Bool.noConfusion (h3 hA).2
    obtain ⟨hiff, hsome⟩ := h8 rfl
    dsimp only
    cases bufB
    · -- no insert buffered: the check had found a row
      have hresf : resB = some false := by
        rcases resB with _ | rB
        · exact absurd hsome (by simp)
        · cases rB
          · rfl
          · exact absurd (hiff.mp rfl) (by simp)
      subst hresf
      refine ⟨h1, by omega,
        fun hA => absurd hA hAnot,
        fun hh => absurd hh (by omega),
        h5,
        fun hh => absurd hh (by omega),
        h7,
        fun hh => absurd hh (by omega),
        h9,
        fun _ => rfl,
        h11,
        fun hh => absurd (Or.inr hh.1) hAnot,
        fun hh => absurd hh.1 (by omega),
        fun hh => absurd (Or.inr hh.1) hAnot,
        fun hh => absurd hh.1 (by omega),
        fun hh => absurd hh.2 (by simp),
        ?_,
        fun _ => h18 rfl⟩
      intro hAf
      have := h18 rfl
      rw [hAf] at this
      exact absurd this (by simp)
    · -- insert buffered: the check had seen the empty table
      have hrest : resB = some true := hiff.mpr rfl
      subst hrest
      have hdb0 : db = 0 := h13 ⟨rfl, rfl⟩
      subst hdb0
      have hcntA : raceCnt pcA resA = 0 := by
        by_cases hcond : pcA = 3 ∧ resA = some true
        · exfalso
          have h0 := h11
          unfold raceCnt at h0
          rw [if_pos hcond, if_neg (show ¬((2 : Nat) = 3
              ∧ (some true : Option Bool) = some true) by simp)] at h0
          exact absurd h0 (by simp)
        · unfold raceCnt
          rw [if_neg hcond]
      refine ⟨h1, by omega,
        fun hA => absurd hA hAnot,
        fun hh => absurd hh (by omega),
        h5,
        fun hh => absurd hh (by omega),
        h7,
        fun hh => absurd hh (by omega),
        h9,
        fun _ => rfl,
        ?_,
        fun hh => absurd (Or.inr hh.1) hAnot,
        fun hh => absurd hh.1 (by omega),
        fun hh => absurd (Or.inr hh.1) hAnot,
        fun hh => absurd hh.1 (by omega),
        fun hh => h16 ⟨hh.1, rfl⟩,
        fun _ => rfl,
        fun hh => absurd hh (by simp)⟩
      rw [hcntA]
      simp [raceCnt]
  · -- pc ≥ 3: done, no change
    exact ⟨h1, h2, h3, h4, h5, h6, h7, h8, h9, h10, h11, h12, h13, h14,
      h15, h16, h17, h18⟩

theorem race_exec_inv (sched : List Bool) : RaceInv (race_exec sched) := by
  have hinit : RaceInv RaceState.init := by
    unfold RaceInv RaceState.init raceCnt
    dsimp only
    refine ⟨by omega, by omega, ?_, ?_, fun _ => ⟨rfl, rfl⟩,
      fun _ => ⟨rfl, rfl⟩, ?_, ?_, ?_, ?_, by simp [raceCnt], ?_, ?_, ?_,
      ?_, by simp, by simp, by simp⟩
    all_goals intro hh
    all_goals exact absurd hh (by omega)
  unfold race_exec
  have hstep : ∀ (l : List Bool) (s : RaceState), RaceInv s →
      RaceInv (l.foldl (fun s c => if c then stepA s else stepB s) s) := by
    intro l
    induction l with
    | nil => intro s hs; exact hs
    | cons c cs ih =>
      intro s hs
      rw [List.foldl_cons]
      cases c
      · exact ih _ (stepB_inv s hs)
      · exact ih _ (stepA_inv s hs)
  exact hstep sched RaceState.init hinit

theorem race_final_state (s : RaceState) (hinv : RaceInv s)
    (hA : s.pcA = 3) (hB : s.pcB = 3) :
    s.db = 1
    ∧ ((s.resA = some true ∧ s.resB = some false)
       ∨ (s.resA = some false ∧ s.resB = some true)) := by
  obtain ⟨pcA, pcB, lockFree, lockByA, db, bufA, bufB, resA, resB⟩ := s
  dsimp only at hA hB ⊢
  subst hA; subst hB
  unfold RaceInv at hinv
  dsimp only at hinv
  obtain ⟨h1, h2, h3, h4, h5, h6, h7, h8, h9, h10, h11, h12, h13, h14, h15,
    h16, h17, h18⟩ := hinv
  rcases resA with _ | rA
  · exact absurd (h9 rfl) (by simp)
  rcases resB with _ | rB
  · exact absurd (h10 rfl) (by simp)
  cases rA <;> cases rB
  · exact absurd (h17 rfl) (by simp)
  · refine ⟨?_, Or.inr ⟨rfl, rfl⟩⟩
    simp [raceCnt] at h11
    exact h11
  · refine ⟨?_, Or.inl ⟨rfl, rfl⟩⟩
    simp [raceCnt] at h11
    exact h11
  · exact absurd (h16 ⟨rfl, rfl⟩) (by simp)

/-- C8.  Two concurrent `get_or_create_state_with_lock("continuous", X)`
transactions against a database with no continuous row, serialized only
by the transaction-scoped advisory lock (both callers hash the same
in-process key `"scraper_state_continuous"`, hence contend for one
lock): under every schedule in which both transactions finish, exactly
one `scraper_state` row with `state_type = 'continuous'` is committed,
and exactly one of the two callers returns `was_created = true`. -/
theorem advisory_lock_race (sched : List Bool)
    (hA : (race_exec sched).pcA = 3) (hB : (race_exec sched).pcB = 3) :
    (race_exec sched).db = 1
    ∧ (((race_exec sched).resA = some true
        ∧ (race_exec sched).resB = some false)
       ∨ ((race_exec sched).resA = some false
          ∧ (race_exec sched).resB = some true)) :=
  race_final_state (race_exec sched) (race_exec_inv sched) hA hB

/-- Witness for C8: the schedule where caller A runs to completion and
then caller B does — B sees the committed row and reports
`was_created = false`. -/
theorem advisory_lock_race_witness :
    (race_exec [true, true, true, false, false, false]).pcA = 3
    ∧ (race_exec [true, true, true, false, false, false]).pcB = 3
    ∧ (race_exec [true, true, true, false, false, false]).db = 1
    ∧ (((race_exec [true, true, true, false, false, false]).resA
          = some true
        ∧ (race_exec [true, true, true, false, false, false]).resB
          = some false)
       ∨ ((race_exec [true, true, true, false, false, false]).resA
          = some false
        ∧ (race_exec [true, true, true, false, false, false]).resB
          = some true)) :=
  ⟨by decide, by decide,
   (advisory_lock_race [true, true, true, false, false, false]
     (by decide) (by decide)).1,
   (advisory_lock_race [true, true, true, false, false, false]
     (by decide) (by decide)).2⟩

end TaggerNews
